import Mathlib

/-!
Verification development for the libmft NTFS Master File Table parser.

The Python source is embedded shallowly: byte buffers become `List Nat`
(each element a byte value), Python slices and memoryview writes become
explicit clamped list operations, fallible code returns `Except String`
(the string names the Python exception class that would be raised), and
loops that Python bounds only dynamically take an explicit fuel argument
whose exhaustion models non-termination.
-/

deriving instance DecidableEq for Except

namespace Libmft


/-! ### Python sequence semantics -/

/-- Normalise one bound of a Python slice `l[a:b]` for a sequence of length
`n`: negative indices count from the end, and both ends clamp into `[0, n]`. -/
def pyIdx (n : Nat) (i : Int) : Nat :=
  if i < 0 then ((n : Int) + i).toNat else min i.toNat n

/-- Python slice `l[a:b]` with full clamping semantics (never fails,
may return fewer elements than requested). -/
def pySlice (l : List α) (a b : Int) : List α :=
  let s := pyIdx l.length a
  let e := pyIdx l.length b
  (l.drop s).take (e - s)

/-- Python memoryview slice assignment `l[a:b] = src`: the source must have
exactly the length of the (clamped) destination slice, otherwise the
assignment raises ValueError. -/
def pyWrite (l : List Nat) (a b : Int) (src : List Nat) : Except String (List Nat) :=
  let s := pyIdx l.length a
  let e := pyIdx l.length b
  if src.length = e - s then
    .ok (l.take s ++ src ++ l.drop (s + src.length))
  else
    .error "ValueError"

/-- Unsigned little-endian value of a byte list,
`int.from_bytes(bs, "little", signed=False)`. -/
def leUnsigned (bs : List Nat) : Nat :=
  bs.foldr (fun b acc => b + 256 * acc) 0

/-- Signed little-endian value of a byte list,
`int.from_bytes(bs, "little", signed=True)`. -/
def leSigned (bs : List Nat) : Int :=
  let u := leUnsigned bs
  let k := 8 * bs.length
  if 2 * u < 2 ^ k then (u : Int) else (u : Int) - 2 ^ k

/-! ### Fixup engine — `libmft.util.functions.apply_fixup_array`

The Python function takes `bin_view` (a memoryview of the entry buffer),
`fx_offset`, `fx_count` and `entry_size`.  `fx_array` is a memoryview INTO
`bin_view`, so every read of the signature or of a substitution pair goes
through the current state of the buffer; the model therefore re-slices the
buffer on every iteration.  `int(entry_size / fx_len)` is float division
truncated toward zero; on the modelled domain (operands below 2^52) that
equals `Int.div`.  A fuel argument bounds the `while` loop; for every input
on which the Python loop terminates, `entry_size + 3` iterations suffice
(shown by the theorems below), so fuel exhaustion models the inputs on
which Python loops forever. -/

def fixupLoop (fuel : Nat) (buf : List Nat) (fxOffset fxCount : Nat)
    (sectorSize : Int) (entrySize : Nat) (index : Nat) : Except String (List Nat) :=
  match fuel with
  | 0 => .error "nonterminating"
  | fuel + 1 =>
    if sectorSize * index - 2 ≤ (entrySize : Int) then
      if pySlice buf (sectorSize * index - 2) (sectorSize * index - 2 + 2) =
          (pySlice buf fxOffset (fxOffset + 2 * fxCount)).take 2 then
        match pyWrite buf (sectorSize * index - 2) (sectorSize * index - 2 + 2)
            (((pySlice buf fxOffset (fxOffset + 2 * fxCount)).drop (2 * index)).take 2) with
        | .ok buf2 => fixupLoop fuel buf2 fxOffset fxCount sectorSize entrySize (index + 1)
        | .error e => .error e
      else
        .error "FixUpError"
    else
      .ok buf

/-- Model of `apply_fixup_array(bin_view, fx_offset, fx_count, entry_size)`.
`fx_count = 1` makes Python divide by zero. -/
def applyFixupArray (buf : List Nat) (fxOffset fxCount entrySize : Nat) :
    Except String (List Nat) :=
  let fxLen : Int := (fxCount : Int) - 1
  if fxLen = 0 then .error "ZeroDivisionError"
  else
    let sectorSize : Int := Int.tdiv (entrySize : Int) fxLen
    fixupLoop (entrySize + 3) buf fxOffset fxCount sectorSize entrySize 1

/-! ### Spec-side description of the fixup patch (claim C1)

`patchSectors orig fxOffset sectorSize k` writes, for each sector index
`i ∈ [1, k]`, the fixup-array entry `orig[fxOffset+2i .. fxOffset+2i+2]`
over the pair at byte offset `i * sectorSize - 2`, reading everything from
the ORIGINAL buffer as the claim's wording does. -/

def setPair (l : List Nat) (p a b : Nat) : List Nat :=
  (l.set p a).set (p + 1) b

def patchSectors (orig : List Nat) (fxOffset sectorSize : Nat) : Nat → List Nat
  | 0 => orig
  | k + 1 =>
    setPair (patchSectors orig fxOffset sectorSize k) ((k + 1) * sectorSize - 2)
      (orig.getD (fxOffset + 2 * (k + 1)) 0) (orig.getD (fxOffset + 2 * (k + 1) + 1) 0)

/-! ### Data-run decoder — `libmft.headers.DataRuns.__init__`

The run list is parsed from `runs_view`: while the header byte is non-zero,
`len_len = header & 0x0F` and `off_len = (header & 0xF0) >> 4`; the next
`len_len` bytes are the unsigned little-endian run length, and — unless
`off_len` is zero (sparse run) — the following `off_len` bytes are a signed
little-endian delta added to the previous absolute offset.  Reading the
header byte past the end of the buffer raises IndexError (slices clamp, the
single-byte index does not). -/

def dataRunsLoop : List Nat → Int → Except String (List (Nat × Option Int))
  | [], _ => .error "IndexError"
  | h :: rest, prev =>
    if h = 0 then .ok []
    else
      let lengthLen := h % 16
      let lengthOffset := h / 16 % 16
      let drLength := leUnsigned (rest.take lengthLen)
      if lengthOffset = 0 then
        match dataRunsLoop (rest.drop (lengthLen + lengthOffset)) prev with
        | .ok runs => .ok ((drLength, none) :: runs)
        | .error e => .error e
      else
        match dataRunsLoop (rest.drop (lengthLen + lengthOffset))
            (leSigned ((rest.drop lengthLen).take lengthOffset) + prev) with
        | .ok runs => .ok ((drLength,
            some (leSigned ((rest.drop lengthLen).take lengthOffset) + prev)) :: runs)
        | .error e => .error e
  termination_by bytes _ => bytes.length
  decreasing_by
    all_goals (simp_wf; omega)

/-- Model of `DataRuns(runs_view)`: decode from offset 0 with previous
absolute offset 0. -/
def dataRuns (bytes : List Nat) : Except String (List (Nat × Option Int)) :=
  dataRunsLoop bytes 0

/-! ### Spec-side description of a run list (claim C5) -/

/-- One run as laid out in the stream: `len_len` length bytes and `off_len`
offset bytes (empty for a sparse run). -/
structure RawRun where
  lenBytes : List Nat
  offBytes : List Nat
  deriving DecidableEq

def runHeaderByte (r : RawRun) : Nat :=
  r.lenBytes.length + 16 * r.offBytes.length

def encodeRun (r : RawRun) : List Nat :=
  runHeaderByte r :: (r.lenBytes ++ r.offBytes)

def encodeRuns : List RawRun → List Nat
  | [] => [0]
  | r :: rs => encodeRun r ++ encodeRuns rs

/-- Absolute runs as the spec words them: lengths are unsigned little-endian,
a run without offset bytes is sparse (`none`) and leaves the running absolute
offset unchanged, any other run's absolute offset is the previous absolute
offset plus the signed little-endian delta. -/
def specRuns : List RawRun → Int → List (Nat × Option Int)
  | [], _ => []
  | r :: rs, prev =>
    if r.offBytes.length = 0 then
      (leUnsigned r.lenBytes, none) :: specRuns rs prev
    else
      (leUnsigned r.lenBytes, some (prev + leSigned r.offBytes)) ::
        specRuns rs (prev + leSigned r.offBytes)

def wfRun (r : RawRun) : Prop :=
  r.lenBytes.length ≤ 15 ∧ r.offBytes.length ≤ 15 ∧
    ¬(r.lenBytes.length = 0 ∧ r.offBytes.length = 0)

instance (r : RawRun) : Decidable (wfRun r) := by
  unfold wfRun; infer_instance

/-! ### FILETIME conversion — `libmft.util.functions.convert_filetime`

`convert_filetime(filetime)` returns `datetime(1601, 1, 1) +
timedelta(microseconds=filetime/10)`.  The constructed `datetime` is NAIVE —
no `tzinfo` is attached (the docstring says the value is returned "as if in
UTC").  `filetime/10` is Python float division and `timedelta` rounds a
fractional microsecond count half-to-even; for `filetime < 2^52` the float
computation agrees with exact rational arithmetic, which is what the model
below implements (`microsSince1601` counts microseconds from
1601-01-01 00:00:00). -/

structure PyDatetime where
  microsSince1601 : Nat
  tzinfo : Option Unit
  deriving DecidableEq

/-- Round `ft / 10` microseconds half-to-even, as `timedelta` does. -/
def roundTenthsHalfEven (ft : Nat) : Nat :=
  if ft % 10 < 5 then ft / 10
  else if 5 < ft % 10 then ft / 10 + 1
  else if ft / 10 % 2 = 0 then ft / 10 else ft / 10 + 1

def convert_filetime (ft : Nat) : PyDatetime :=
  { microsSince1601 := roundTenthsHalfEven ft, tzinfo := none }

/-! ### Full-path resolution — `libmft.api.MFT.get_entry_full_path`

Entries are modelled by the data the resolver consults: the header sequence
number and the list of FILE_NAME attributes (attribute id, parent reference,
parent sequence, name-type value, name).  `mft n` models `self[n]`: `none`
models the ValueError raised for an empty or child record (the except branch
of the loop), `some e` a successfully assembled entry.  The `while` loop
takes fuel; `none` as overall result models a resolution that has not
terminated within the given fuel. -/

structure FnAttr where
  attrId : Nat
  parentRef : Nat
  parentSeq : Nat
  nameTypeVal : Nat
  name : String
  deriving DecidableEq

structure PathEntry where
  seqNumber : Nat
  fnAttrs : List FnAttr
  deriving DecidableEq

/-- Model of `MFTEntry.get_main_filename_attr`: first pass keeps the first
attribute attaining the minimal attribute id (ids are compared against an
initial bound of 0xFFFFFFFF); the second pass, among attributes with the same
`(parent_ref, parent_seq)` as the current main, keeps the one with the
smaller name-type value.  If the entry has FILE_NAME attributes but the first
pass selects none (every id at least 0xFFFFFFFF), the second pass dereferences
`None` and Python raises AttributeError. -/
def getMainFilenameAttr (e : PathEntry) : Except String (Option FnAttr) :=
  if e.fnAttrs = [] then .ok none
  else
    match (e.fnAttrs.foldl
        (fun acc a => if a.attrId < acc.2 then (some a, a.attrId) else acc)
        ((none : Option FnAttr), 4294967295)).1 with
    | none => .error "AttributeError"
    | some m => .ok (some (e.fnAttrs.foldl
        (fun m a =>
          if m.parentRef = a.parentRef ∧ m.parentSeq = a.parentSeq ∧
              a.nameTypeVal < m.nameTypeVal then a else m) m))

/-- Backslash join of the accumulated names, leaf first, reversed — models
`"\\".join(reversed(names))`. -/
def joinPath (names : List String) : String :=
  String.intercalate "\\" names.reverse

def resolveLoop (mft : Nat → Option PathEntry) :
    Nat → List String → Nat → Nat → Option (Except String (Bool × String))
  | 0, _, _, _ => none
  | fuel + 1, names, index, seq =>
    if index = 5 then some (.ok (false, joinPath names))
    else
      match mft index with
      | none => some (.ok (true, joinPath names))
      | some parent =>
        if seq ≠ parent.seqNumber then some (.ok (true, joinPath names))
        else
          match getMainFilenameAttr parent with
          | .error e => some (.error e)
          | .ok none => some (.error "AttributeError")
          | .ok (some pfn) =>
            resolveLoop mft fuel (names ++ [pfn.name]) pfn.parentRef pfn.parentSeq

/-- Argument dispatch of `get_entry_full_path`: both arguments absent or both
present raise MFTError; a truthy `entry_number` (present AND non-zero) routes
through `self[entry_number]`; otherwise a truthy `entry` is used; otherwise
the final `else` raises MFTError. -/
def selectWorkingEntry (mft : Nat → Option PathEntry)
    (entryNumber : Option Nat) (entry : Option PathEntry) : Except String PathEntry :=
  match entryNumber with
  | some n =>
    if n ≠ 0 then
      match mft n with
      | some e => .ok e
      | none => .error "ValueError"
    else
      match entry with
      | some e => .ok e
      | none => .error "MFTError"
  | none =>
    match entry with
    | some e => .ok e
    | none => .error "MFTError"

def getEntryFullPath (mft : Nat → Option PathEntry) (fuel : Nat)
    (entryNumber : Option Nat) (entry : Option PathEntry) :
    Option (Except String (Bool × String)) :=
  if entryNumber.isNone ∧ entry.isNone then some (.error "MFTError")
  else if entryNumber.isSome ∧ entry.isSome then some (.error "MFTError")
  else
    match selectWorkingEntry mft entryNumber entry with
    | .error e => some (.error e)
    | .ok we =>
      match getMainFilenameAttr we with
      | .error e => some (.error e)
      | .ok none => some (.error "EntryError")
      | .ok (some fn) => resolveLoop mft fuel [fn.name] fn.parentRef fn.parentSeq

/-! ### Spec-side description of a parent chain (claim C4) -/

/-- A parent chain as the claim words it, starting the walk at record
`index` with stored parent sequence `seq` and the names accumulated so far:
it either reaches the root reference 5 (successful, orphan flag false, names
as accumulated), or reaches a record whose current header sequence number
differs from the stored parent sequence (orphan flag true, path built so
far), or steps through a live parent whose main FILE_NAME leads on. -/
inductive Chain (mft : Nat → Option PathEntry) :
    Nat → Nat → List String → Bool × List String → Prop
  | root (seq : Nat) (names : List String) : Chain mft 5 seq names (false, names)
  | mismatch {index seq : Nat} {names : List String} {e : PathEntry}
      (hne : index ≠ 5) (hlook : mft index = some e) (hseq : seq ≠ e.seqNumber) :
      Chain mft index seq names (true, names)
  | step {index seq : Nat} {names : List String} {e : PathEntry} {fn : FnAttr}
      {r : Bool × List String}
      (hne : index ≠ 5) (hlook : mft index = some e) (hseq : seq = e.seqNumber)
      (hfn : getMainFilenameAttr e = .ok (some fn))
      (hrest : Chain mft fn.parentRef fn.parentSeq (names ++ [fn.name]) r) :
      Chain mft index seq names r

/-! ### Datastream normaliser — `libmft.api.Datastream`

A DATA attribute is modelled by the header fields the normaliser consults:
type id (`AttrTypes.DATA` has value 128), optional UTF-16 name, and either
the resident pair (content length, content bytes) or the non-resident fields
(start VCN, end VCN, allocated stream size, current stream size, decoded run
list).  The `Datastream` record mirrors the Python instance attributes,
`dataRunsFrag` being `_data_runs` (a list of `(start_vcn, run_list)` pairs,
`None` while the stream is resident) and `dataRunsSorted` the
`_data_runs_sorted` bit. -/

inductive DataAttrBody where
  | resident (contentLen : Nat) (content : List Nat)
  | nonResident (startVcn endVcn allocSstream currSstream : Nat) (dataRuns : List (Nat × Option Int))
  deriving DecidableEq

structure DataAttr where
  typeId : Nat
  name : Option String
  body : DataAttrBody
  deriving DecidableEq

structure Datastream where
  name : Option String
  size : Nat
  allocSize : Nat
  clusterCount : Nat
  dataRunsFrag : Option (List (Nat × List (Nat × Option Int)))
  content : Option (List Nat)
  dataRunsSorted : Bool
  deriving DecidableEq

def Datastream.init (name : Option String) : Datastream :=
  { name := name, size := 0, allocSize := 0, clusterCount := 0,
    dataRunsFrag := none, content := none, dataRunsSorted := false }

/-- Model of `Datastream.add_data_attribute`. -/
def addDataAttribute (ds : Datastream) (a : DataAttr) : Except String Datastream :=
  if a.typeId ≠ 128 then .error "DataStreamError"
  else if a.name ≠ ds.name then .error "DataStreamError"
  else
    match a.body with
    | .nonResident startVcn endVcn allocS currS runs =>
      .ok { ds with
        clusterCount := if endVcn > ds.clusterCount then endVcn else ds.clusterCount,
        size := if startVcn = 0 then currS else ds.size,
        allocSize := if startVcn = 0 then allocS else ds.allocSize,
        dataRunsFrag := some (ds.dataRunsFrag.getD [] ++ [(startVcn, runs)]),
        dataRunsSorted := false }
    | .resident contentLen content =>
      .ok { ds with
        size := contentLen,
        allocSize := contentLen,
        content := some content }

/-- Merged scalar fields of `add_from_datastream`: cluster count raised to
the maximum, size and allocated size copied from the source when the
destination size is zero and the source size is not. -/
def mergeScalars (ds src : Datastream) : Datastream :=
  { ds with
    clusterCount := if ds.clusterCount < src.clusterCount then src.clusterCount
      else ds.clusterCount,
    size := if ds.size = 0 ∧ src.size ≠ 0 then src.size else ds.size,
    allocSize := if ds.size = 0 ∧ src.size ≠ 0 then src.allocSize else ds.allocSize }

/-- Model of `Datastream.add_from_datastream`. -/
def addFromDatastream (ds src : Datastream) : Except String Datastream :=
  if src.name ≠ ds.name then .error "DataStreamError"
  else
    match ds.dataRunsFrag with
    | none => .error "DataStreamError"
    | some frags =>
      match src.dataRunsFrag with
      | some sfrags =>
        if sfrags ≠ [] then
          .ok { mergeScalars ds src with
            dataRunsFrag := some (frags ++ sfrags),
            dataRunsSorted := false }
        else
          .ok (mergeScalars ds src)
      | none => .ok (mergeScalars ds src)

/-- Stable insertion sort on the first component, the behaviour of Python's
stable `list.sort(key=itemgetter(0))`. -/
def insertByFst (x : Nat × α) : List (Nat × α) → List (Nat × α)
  | [] => [x]
  | y :: ys => if y.1 ≤ x.1 then y :: insertByFst x ys else x :: y :: ys

def sortByFst : List (Nat × α) → List (Nat × α)
  | [] => []
  | x :: xs => insertByFst x (sortByFst xs)

def FstSorted (l : List (Nat × α)) : Prop :=
  l.Pairwise (fun a b => a.1 ≤ b.1)

/-- Model of `Datastream._get_dataruns` (the `dataruns` property): raises on
resident streams, otherwise sorts in place by start VCN if the memoised bit
is clear, and returns the run lists with the start VCNs stripped.  Returns
the value together with the mutated stream. -/
def getDataruns (ds : Datastream) :
    Except String (List (List (Nat × Option Int)) × Datastream) :=
  match ds.dataRunsFrag with
  | none => .error "DataStreamError"
  | some frags =>
    if ds.dataRunsSorted then
      .ok (frags.map Prod.snd, ds)
    else
      .ok ((sortByFst frags).map Prod.snd,
        { ds with dataRunsFrag := some (sortByFst frags), dataRunsSorted := true })

/-- One mutation or read of a datastream, for reachability. -/
inductive DsOp where
  | addAttr (a : DataAttr)
  | merge (src : Datastream)
  | read

/-- A step of the state machine: failed operations raise before mutating, so
they leave the stream unchanged. -/
def dsStep (ds : Datastream) : DsOp → Datastream
  | .addAttr a =>
    match addDataAttribute ds a with
    | .ok d => d
    | .error _ => ds
  | .merge s =>
    match addFromDatastream ds s with
    | .ok d => d
    | .error _ => ds
  | .read =>
    match getDataruns ds with
    | .ok (_, d) => d
    | .error _ => ds

def dsReach (name : Option String) (ops : List DsOp) : Datastream :=
  ops.foldl dsStep (Datastream.init name)

/-- Invariant: whenever the memoised bit is set, the fragment list is sorted
by start VCN. -/
def dsInv (ds : Datastream) : Prop :=
  ds.dataRunsSorted = true → ∀ frags, ds.dataRunsFrag = some frags → FstSorted frags

/-! ### Cluster count of an assembled datastream (claim C3) -/

/-- Building one datastream from a sequence of DATA attributes, the way
`MFTEntry._add_datastream` feeds `add_data_attribute` for one stream name. -/
def buildStream (name : Option String) (attrs : List DataAttr) : Except String Datastream :=
  attrs.foldlM addDataAttribute (Datastream.init name)

def isNonResBody : DataAttrBody → Bool
  | .nonResident _ _ _ _ _ => true
  | .resident _ _ => false

def isNonResData (name : Option String) (a : DataAttr) : Prop :=
  a.typeId = 128 ∧ a.name = name ∧ isNonResBody a.body = true

instance (name : Option String) (a : DataAttr) : Decidable (isNonResData name a) := by
  unfold isNonResData; infer_instance

def endVcnOf (a : DataAttr) : Nat :=
  match a.body with
  | .nonResident _ ev _ _ _ => ev
  | .resident _ _ => 0

/-- Concrete attributes and streams of scenario S4 (end VCNs 99 and 249). -/
def c3BaseAttr : DataAttr := ⟨128, none, .nonResident 0 99 8192 5000 [(3, none)]⟩

def c3ExtAttr : DataAttr := ⟨128, none, .nonResident 100 249 0 0 [(5, some 10)]⟩

def c3BaseStream : Datastream :=
  ⟨none, 5000, 8192, 99, some [(0, [(3, none)])], none, false⟩

def c3ExtStream : Datastream :=
  ⟨none, 0, 0, 249, some [(100, [(5, some 10)])], none, false⟩

def c3MergedStream : Datastream :=
  ⟨none, 5000, 8192, 249, some [(0, [(3, none)]), (100, [(5, some 10)])], none, false⟩

/-! ### Stub scanner — `libmft.api._MFTEntryStub` and `MFT._load_stub_info`

Each slot contributes the bytes read into the 40-byte stub buffer
(`struct "<16xH14xQ"` preceded by the four-byte emptiness test): sequence
number at offset 16 (2 bytes LE) and the packed base-record reference at
offset 32 (8 bytes LE), split by `get_file_reference` into the low 48 bits
(record number) and the high 16 bits (sequence number). -/

def get_file_reference (fileRef : Nat) : Nat × Nat :=
  (fileRef % 2 ^ 48, fileRef / 2 ^ 48 % 2 ^ 16)

structure StubM where
  mftRecord : Nat
  seqNumber : Nat
  baseRecordRef : Nat
  baseRecordSeq : Nat
  deriving DecidableEq

/-- Model of `_MFTEntryStub.load_from_file_pointer`: `None` when the first
four bytes are zero (empty slot), otherwise the unpacked stub. -/
def loadStubFromBytes (bytes : List Nat) (recordN : Nat) : Option StubM :=
  if bytes.take 4 ≠ [0, 0, 0, 0] then
    some { mftRecord := recordN,
           seqNumber := leUnsigned ((bytes.drop 16).take 2),
           baseRecordRef := (get_file_reference (leUnsigned ((bytes.drop 32).take 8))).1,
           baseRecordSeq := (get_file_reference (leUnsigned ((bytes.drop 32).take 8))).2 }
  else
    none

/-- Model of `_MFTEntryStub.is_related(child)`. -/
def isRelated (parent child : StubM) : Bool :=
  parent.mftRecord = child.baseRecordRef ∧ parent.seqNumber = child.baseRecordSeq

structure ScanState where
  numberValidEntries : Nat
  emptyEntries : List Nat
  entriesParentChild : List (Nat × Nat)
  entriesChildParent : List (Nat × Nat)
  deriving DecidableEq

/-- The second loop of `_load_stub_info` (`for i, stub in enumerate(temp)`),
walking the decoded stubs with their slot index: a `None` stub records the
slot as empty; any other stub counts as a valid entry, and when its non-zero
base-record reference points at a stub related to it, the pair is registered
in both maps.  `temp[stub.base_record_ref]` raises IndexError when out of
range, and calling `is_related` on a `None` entry raises AttributeError. -/
def scanGo (temp : List (Option StubM)) :
    Nat → List (Option StubM) → ScanState → Except String ScanState
  | _, [], st => .ok st
  | i, none :: rest, st =>
    scanGo temp (i + 1) rest { st with emptyEntries := st.emptyEntries ++ [i] }
  | i, some s :: rest, st =>
    if s.baseRecordRef ≠ 0 then
      match temp[s.baseRecordRef]? with
      | none => .error "IndexError"
      | some none => .error "AttributeError"
      | some (some parent) =>
        if isRelated parent s then
          scanGo temp (i + 1) rest { st with
            numberValidEntries := st.numberValidEntries + 1,
            entriesParentChild := st.entriesParentChild ++ [(s.baseRecordRef, s.mftRecord)],
            entriesChildParent := st.entriesChildParent ++ [(s.mftRecord, s.baseRecordRef)] }
        else
          scanGo temp (i + 1) rest
            { st with numberValidEntries := st.numberValidEntries + 1 }
    else
      scanGo temp (i + 1) rest
        { st with numberValidEntries := st.numberValidEntries + 1 }

/-- First loop of `_load_stub_info`: decode every slot into a stub. -/
def stubScan (slotBytes : List (List Nat)) : List (Option StubM) :=
  (slotBytes.enum).map (fun p => loadStubFromBytes p.2 p.1)

def loadStubInfo (slotBytes : List (List Nat)) : Except String ScanState :=
  scanGo (stubScan slotBytes) 0 (stubScan slotBytes)
    { numberValidEntries := 0, emptyEntries := [],
      entriesParentChild := [], entriesChildParent := [] }

/-! ### Iteration — `libmft.api.MFT.__iter__` -/

/-- The iterator body: for each record number, first the invariant guard
(`returned > self._number_valid_entries` raises MFTError), then empty and
child slots are skipped and every other slot is yielded (modelled by
counting it). -/
def iterGo (st : ScanState) : List Nat → Nat → Except String Nat
  | [], returned => .ok returned
  | i :: rest, returned =>
    if returned > st.numberValidEntries then .error "MFTError"
    else if i ∈ st.emptyEntries ∨ i ∈ st.entriesChildParent.map Prod.fst then
      iterGo st rest returned
    else
      iterGo st rest (returned + 1)

/-- Number of entries yielded by iterating an MFT with `numSlots` slots (or
the MFTError the iteration raises). -/
def iterMFT (st : ScanState) (numSlots : Nat) : Except String Nat :=
  iterGo st (List.range numSlots) 0

/-! ### Spec-side descriptions of the scan outputs (claims C2 and C6) -/

/-- Does the stub at this slot get registered as an extension?  True exactly
when the base-record reference is non-zero, the referenced slot holds a stub,
and that stub is related. -/
def regCond (temp : List (Option StubM)) (os : Option StubM) : Bool :=
  match os with
  | none => false
  | some s =>
    if s.baseRecordRef ≠ 0 then
      match temp[s.baseRecordRef]? with
      | some (some parent) => isRelated parent s
      | _ => false
    else false

def childOf (temp : List (Option StubM)) (os : Option StubM) : Option (Nat × Nat) :=
  match os with
  | none => none
  | some s => if regCond temp (some s) then some (s.mftRecord, s.baseRecordRef) else none

def parentOf (temp : List (Option StubM)) (os : Option StubM) : Option (Nat × Nat) :=
  match os with
  | none => none
  | some s => if regCond temp (some s) then some (s.baseRecordRef, s.mftRecord) else none

def specEmptiesFrom : Nat → List (Option StubM) → List Nat
  | _, [] => []
  | i, none :: rest => i :: specEmptiesFrom (i + 1) rest
  | i, some _ :: rest => specEmptiesFrom (i + 1) rest

/-- Concrete three-slot image: slots 0 and 1 are bases, slot 2 is an
extension of slot 1 with matching base sequence number 3. -/
def c2Slots : List (List Nat) :=
  [[1, 0, 0, 0] ++ List.replicate 12 0 ++ [1, 0] ++ List.replicate 14 0
      ++ List.replicate 8 0,
   [1, 0, 0, 0] ++ List.replicate 12 0 ++ [3, 0] ++ List.replicate 14 0
      ++ List.replicate 8 0,
   [1, 0, 0, 0] ++ List.replicate 12 0 ++ [9, 0] ++ List.replicate 14 0
      ++ [1, 0, 0, 0, 0, 0, 3, 0]]

/-- Slots for the two C6 scenarios: a mismatching extension (treated as a
base, no error), and an extension whose referenced base slot is empty. -/
def c6MismatchSlots : List (List Nat) :=
  [[1, 0, 0, 0] ++ List.replicate 12 0 ++ [1, 0] ++ List.replicate 14 0
      ++ List.replicate 8 0,
   [1, 0, 0, 0] ++ List.replicate 12 0 ++ [3, 0] ++ List.replicate 14 0
      ++ List.replicate 8 0,
   [1, 0, 0, 0] ++ List.replicate 12 0 ++ [9, 0] ++ List.replicate 14 0
      ++ [1, 0, 0, 0, 0, 0, 7, 0]]

def c6EmptyRefSlots : List (List Nat) :=
  [[1, 0, 0, 0] ++ List.replicate 12 0 ++ [9, 0] ++ List.replicate 14 0
      ++ [1, 0, 0, 0, 0, 0, 5, 0],
   List.replicate 40 0]

/-! ### Attribute walker — `libmft.api.MFTEntry._load_attributes`

The walker advances through the attribute stream until the four sentinel
bytes 0xFFFFFFFF; for each attribute it reads the basic header info and, when
the type is enabled, builds the attribute via `Attribute.create_from_binary`,
routing DATA (type id 128) to the datastreams and everything else to the
attribute map; the offset always advances by the attribute's total length.
There is NO exception handler around the body (the historical one is
commented out in the source).

Modelled from the spec: `_get_attr_info` and the per-type content decoders
live in the module `libmft.attribute`, which is not part of the sources;
`_get_attr_info` is modelled from the attribute-header layout of §4.3 (type
id, 4-byte LE at offset 0; total length, 4-byte LE at offset 4; non-resident
flag byte at offset 8; fewer than nine bytes raise struct.error), the
resident suffix from the same layout (content length, 4-byte LE at offset
16; content offset, 2-byte LE at offset 20), and the content decoders are a
parameter `decode` mapping type id and content bytes to a value or a
ContentError, exactly the decoder contract the spec states. -/

def attrTypeOf (view : List Nat) : Nat :=
  leUnsigned (view.take 4)

def residentContentOf (view : List Nat) : List Nat :=
  pySlice view ((leUnsigned ((view.drop 20).take 2) : Nat) : Int)
    ((leUnsigned ((view.drop 20).take 2) + leUnsigned ((view.drop 16).take 4) : Nat) : Int)

def getAttrInfo (view : List Nat) : Except String (Nat × Nat × Bool) :=
  if view.length < 9 then .error "struct.error"
  else .ok (leUnsigned (view.take 4), leUnsigned ((view.drop 4).take 4),
    view.getD 8 0 ≠ 0)

structure AttrParsed where
  typeId : Nat
  nonResident : Bool
  content : Option (List Nat)
  deriving DecidableEq

/-- Model of `Attribute.create_from_binary`: a resident attribute slices the
content region and calls the dispatched decoder (whose failure propagates);
a non-resident attribute parses its header — decoding the run list at the
header-relative run-list offset when `load_dataruns` is set — and carries no
content. -/
def createFromBinary (decode : Nat → List Nat → Except String (List Nat))
    (loadDataruns : Bool) (nonResident : Bool) (view : List Nat) :
    Except String AttrParsed :=
  if nonResident then
    if loadDataruns then
      match dataRuns (view.drop (leUnsigned ((view.drop 32).take 2))) with
      | .ok _ => .ok { typeId := attrTypeOf view, nonResident := true, content := none }
      | .error e => .error e
    else
      .ok { typeId := attrTypeOf view, nonResident := true, content := none }
  else
    match decode (attrTypeOf view) (residentContentOf view) with
    | .ok c => .ok { typeId := attrTypeOf view, nonResident := false, content := some c }
    | .error e => .error e

structure EntryAttrs where
  attrs : List AttrParsed
  dataAttrs : List AttrParsed
  deriving DecidableEq

def loadAttributesLoop (decode : Nat → List Nat → Except String (List Nat))
    (loadDataruns : Bool) (enabled : List Nat) (view : List Nat) :
    Nat → Nat → EntryAttrs → Except String EntryAttrs
  | 0, _, _ => .error "nonterminating"
  | fuel + 1, offset, acc =>
    if pySlice view (offset : Int) ((offset : Int) + 4) = [255, 255, 255, 255] then
      .ok acc
    else
      match getAttrInfo (view.drop offset) with
      | .error e => .error e
      | .ok (attrType, attrLen, nonRes) =>
        if attrType ∈ enabled then
          match createFromBinary decode loadDataruns nonRes (view.drop offset) with
          | .error e => .error e
          | .ok a =>
            if a.typeId = 128 then
              loadAttributesLoop decode loadDataruns enabled view fuel (offset + attrLen)
                { acc with dataAttrs := acc.dataAttrs ++ [a] }
            else
              loadAttributesLoop decode loadDataruns enabled view fuel (offset + attrLen)
                { acc with attrs := acc.attrs ++ [a] }
        else
          loadAttributesLoop decode loadDataruns enabled view fuel (offset + attrLen) acc

def loadAttributes (decode : Nat → List Nat → Except String (List Nat))
    (loadDataruns : Bool) (enabled : List Nat) (view : List Nat) :
    Except String EntryAttrs :=
  loadAttributesLoop decode loadDataruns enabled view (view.length + 1) 0
    { attrs := [], dataAttrs := [] }

/-- Sample attribute stream: a resident STANDARD_INFORMATION (type 16,
total length 32, content at offset 24) followed by a resident attribute of
type 48 and the 0xFFFFFFFF sentinel. -/
def c8Stream : List Nat :=
  [16, 0, 0, 0, 32, 0, 0, 0, 0, 0, 0, 0, 0, 0, 0, 0,
   4, 0, 0, 0, 24, 0, 0, 0, 9, 9, 9, 9, 0, 0, 0, 0]
  ++ [48, 0, 0, 0, 32, 0, 0, 0, 0, 0, 0, 0, 0, 0, 0, 0,
   4, 0, 0, 0, 24, 0, 0, 0, 7, 7, 7, 7, 0, 0, 0, 0]
  ++ [255, 255, 255, 255]

/-- A decoder that rejects STANDARD_INFORMATION content (ContentError) and
accepts everything else. -/
def c8Decode : Nat → List Nat → Except String (List Nat) :=
  fun t bytes => if t = 16 then .error "ContentError" else .ok bytes

/-! ### Theorems -/

theorem length_setPair (l : List Nat) (p a b : Nat) :
    (setPair l p a b).length = l.length := by
  simp [setPair]

theorem length_patchSectors (orig : List Nat) (f s k : Nat) :
    (patchSectors orig f s k).length = orig.length := by
  induction k with
  | zero => rfl
  | succ k ih => simp [patchSectors, length_setPair, ih]

theorem setPair_getElem?_ne (l : List Nat) (p a b j : Nat)
    (h1 : j ≠ p) (h2 : j ≠ p + 1) : (setPair l p a b)[j]? = l[j]? := by
  simp [setPair, List.getElem?_set_ne (Ne.symm h2), List.getElem?_set_ne (Ne.symm h1)]

theorem patchSectors_getElem?_untouched (orig : List Nat) (f s k j : Nat) (hs : 2 < s)
    (h : ∀ i, 1 ≤ i → i ≤ k → j ≠ i * s - 2 ∧ j ≠ i * s - 1) :
    (patchSectors orig f s k)[j]? = orig[j]? := by
  induction k with
  | zero => rfl
  | succ k ih =>
    have hk := h (k + 1) (by omega) (le_refl _)
    have hsk : s ≤ (k + 1) * s := by
      simpa using Nat.mul_le_mul_right s (show 1 ≤ k + 1 by omega)
    have hstep : ((k + 1) * s - 2) + 1 = (k + 1) * s - 1 := by omega
    rw [patchSectors, setPair_getElem?_ne _ _ _ _ _ hk.1 (by rw [hstep]; exact hk.2)]
    exact ih (fun i h1 h2 => h i h1 (by omega))

theorem mul_sub_two_ne (s i i' : Nat) (hs : 2 < s) (hi : 1 ≤ i) (hi' : 1 ≤ i')
    (hne : i ≠ i') : i * s - 2 ≠ i' * s - 2 ∧ i * s - 2 ≠ i' * s - 1 := by
  rcases Nat.lt_or_ge i i' with h | h
  · have h1 : i * s + s ≤ i' * s := by
      have := Nat.mul_le_mul_right s (show i + 1 ≤ i' by omega)
      simpa [Nat.add_mul] using this
    have h2 : s ≤ i * s := by simpa using Nat.mul_le_mul_right s hi
    omega
  · have hlt : i' < i := lt_of_le_of_ne h (Ne.symm hne)
    have h1 : i' * s + s ≤ i * s := by
      have := Nat.mul_le_mul_right s (show i' + 1 ≤ i by omega)
      simpa [Nat.add_mul] using this
    have h2 : s ≤ i' * s := by simpa using Nat.mul_le_mul_right s hi'
    omega

theorem patchSectors_getElem?_pair (orig : List Nat) (f s : Nat) (hs : 2 < s) :
    ∀ k i, 1 ≤ i → i ≤ k → i * s - 1 < orig.length → f + 2 * i + 1 < orig.length →
    (patchSectors orig f s k)[i * s - 2]? = orig[f + 2 * i]? ∧
    (patchSectors orig f s k)[i * s - 1]? = orig[f + 2 * i + 1]? := by
  intro k
  induction k with
  | zero => intro i h1 h2; omega
  | succ k ih =>
    intro i h1 h2 hpos hfx
    by_cases hik : i = k + 1
    · subst hik
      have hlen : (patchSectors orig f s k).length = orig.length :=
        length_patchSectors orig f s k
      have hsk : s ≤ (k + 1) * s := by
        simpa using Nat.mul_le_mul_right s (show 1 ≤ k + 1 by omega)
      have hp2 : (k + 1) * s - 2 < orig.length := by omega
      have hp1 : (k + 1) * s - 2 + 1 = (k + 1) * s - 1 := by omega
      constructor
      · rw [patchSectors, setPair, List.getElem?_set_ne (by omega),
          List.getElem?_set_self (by rw [hlen]; omega)]
        rw [List.getElem?_eq_getElem (l := orig) (by omega),
          List.getD_eq_getElem orig 0 (by omega)]
      · rw [patchSectors, setPair, ← hp1,
          List.getElem?_set_self (by rw [List.length_set, hlen]; omega)]
        rw [List.getElem?_eq_getElem (l := orig) (by omega),
          List.getD_eq_getElem orig 0 (by omega)]
    · have hik' : i ≤ k := by omega
      have hne := mul_sub_two_ne s (k + 1) i hs (by omega) h1 (by omega)
      have hp1 : i * s - 2 + 1 = i * s - 1 := by
        have : s ≤ i * s := by simpa using Nat.mul_le_mul_right s h1
        omega
      have hne1 : i * s - 2 ≠ (k + 1) * s - 2 := by
        intro hcontra; exact (mul_sub_two_ne s i (k + 1) hs h1 (by omega) hik).1 hcontra
      have hne2 : i * s - 2 ≠ (k + 1) * s - 1 := by
        intro hcontra; exact (mul_sub_two_ne s i (k + 1) hs h1 (by omega) hik).2 hcontra
      have hne3 : i * s - 1 ≠ (k + 1) * s - 2 := by
        intro hcontra
        exact (mul_sub_two_ne s (k + 1) i hs (by omega) h1 (fun hh => hik hh.symm)).2 hcontra.symm
      have hne4 : i * s - 1 ≠ (k + 1) * s - 1 := by
        intro hcontra
        have : i * s = (k + 1) * s := by
          have hsi : s ≤ i * s := by simpa using Nat.mul_le_mul_right s h1
          have hsk : s ≤ (k + 1) * s := by
            simpa using Nat.mul_le_mul_right s (show 1 ≤ k + 1 by omega)
          omega
        have := Nat.eq_of_mul_eq_mul_right (show 0 < s by omega) this
        exact hik this
      have hstep : ((k + 1) * s - 2) + 1 = (k + 1) * s - 1 := by
        have : s ≤ (k + 1) * s := by
          simpa using Nat.mul_le_mul_right s (show 1 ≤ k + 1 by omega)
        omega
      constructor
      · rw [patchSectors, setPair_getElem?_ne _ _ _ _ _ hne1 (by rw [hstep]; exact hne2)]
        exact (ih i h1 hik' hpos hfx).1
      · rw [patchSectors, setPair_getElem?_ne _ _ _ _ _ hne3 (by rw [hstep]; exact hne4)]
        exact (ih i h1 hik' hpos hfx).2

theorem pyIdx_ofNat (n a : Nat) : pyIdx n (a : Int) = min a n := by
  simp [pyIdx]

theorem pySlice_nat (l : List α) (a b : Nat) (hb : b ≤ l.length) (hab : a ≤ b) :
    pySlice l (a : Int) (b : Int) = (l.drop a).take (b - a) := by
  simp only [pySlice, pyIdx_ofNat]
  rw [Nat.min_eq_left (le_trans hab hb), Nat.min_eq_left hb]

theorem pySlice_getElem? (l : List α) (a b t : Nat) (hb : b ≤ l.length) (hab : a ≤ b) :
    (pySlice l (a : Int) (b : Int))[t]? = if t < b - a then l[a + t]? else none := by
  rw [pySlice_nat l a b hb hab]
  by_cases ht : t < b - a
  · rw [if_pos ht, List.getElem?_take_of_lt ht, List.getElem?_drop]
  · rw [if_neg ht]
    refine List.getElem?_eq_none ?_
    have := List.length_take_le (b - a) (l.drop a)
    omega

theorem pySlice_congr {l1 l2 : List α} (a b : Nat) (hlen : l1.length = l2.length)
    (hb : b ≤ l1.length) (hab : a ≤ b)
    (h : ∀ j, a ≤ j → j < b → l1[j]? = l2[j]?) :
    pySlice l1 (a : Int) (b : Int) = pySlice l2 (a : Int) (b : Int) := by
  apply List.ext_getElem?
  intro t
  rw [pySlice_getElem? l1 a b t hb hab, pySlice_getElem? l2 a b t (hlen ▸ hb) hab]
  by_cases ht : t < b - a
  · rw [if_pos ht, if_pos ht]
    exact h (a + t) (Nat.le_add_right a t) (by omega)
  · rw [if_neg ht, if_neg ht]

theorem take_two_drop (l : List Nat) (q : Nat) (h : q + 2 ≤ l.length) :
    (l.drop q).take 2 = [l.getD q 0, l.getD (q + 1) 0] := by
  have h1 : q < l.length := by omega
  have h2 : q + 1 < l.length := by omega
  rw [List.drop_eq_getElem_cons h1, List.drop_eq_getElem_cons h2,
    List.take_succ_cons, List.take_succ_cons, List.take_zero,
    List.getD_eq_getElem l 0 h1, List.getD_eq_getElem l 0 h2]

theorem pySlice_pair (l : List Nat) (p : Nat) (h : p + 2 ≤ l.length) :
    pySlice l (p : Int) ((p : Int) + 2) = [l.getD p 0, l.getD (p + 1) 0] := by
  have hcast : ((p : Int) + 2) = ((p + 2 : Nat) : Int) := by push_cast; ring
  rw [hcast, pySlice_nat l p (p + 2) h (by omega)]
  have hsub : p + 2 - p = 2 := by omega
  rw [hsub, take_two_drop l p h]

theorem take_append_pair_drop (l : List Nat) (p a b : Nat) (h : p + 2 ≤ l.length) :
    l.take p ++ [a, b] ++ l.drop (p + 2) = setPair l p a b := by
  induction p generalizing l with
  | zero =>
    match l, h with
    | x :: y :: t, _ => simp [setPair]
  | succ p ih =>
    match l, h with
    | x :: t, h =>
      have ht : p + 2 ≤ t.length := by simpa using h
      simp only [List.take_succ_cons, List.drop_succ_cons, List.cons_append,
        setPair, List.set_cons_succ]
      have := ih t ht
      simp only [setPair] at this
      rw [← this]

theorem pyWrite_pair (l : List Nat) (p a b : Nat) (h : p + 2 ≤ l.length) :
    pyWrite l (p : Int) ((p : Int) + 2) [a, b] = .ok (setPair l p a b) := by
  have hcast : ((p : Int) + 2) = ((p + 2 : Nat) : Int) := by push_cast; ring
  rw [hcast]
  simp only [pyWrite, pyIdx_ofNat, Nat.min_eq_left h,
    Nat.min_eq_left (show p ≤ l.length from by omega)]
  have hlen : ([a, b] : List Nat).length = (p + 2) - p := by simp
  rw [if_pos hlen]
  have h2 : ([a, b] : List Nat).length = 2 := rfl
  rw [h2, ← take_append_pair_drop l p a b h]

theorem fixupLoop_succ (fuel : Nat) (buf : List Nat) (f c : Nat) (ss : Int) (n k : Nat) :
    fixupLoop (fuel + 1) buf f c ss n k =
      if ss * k - 2 ≤ (n : Int) then
        if pySlice buf (ss * k - 2) (ss * k - 2 + 2) =
            (pySlice buf f (f + 2 * c)).take 2 then
          match pyWrite buf (ss * k - 2) (ss * k - 2 + 2)
              (((pySlice buf f (f + 2 * c)).drop (2 * k)).take 2) with
          | .ok buf2 => fixupLoop fuel buf2 f c ss n (k + 1)
          | .error e => .error e
        else
          .error "FixUpError"
      else
        .ok buf := rfl

theorem fixupLoop_run (buf : List Nat) (f c s : Nat)
    (hs : 2 < s) (hc : 2 ≤ c)
    (hdiv : s * (c - 1) = buf.length)
    (hfx : f + 2 * c ≤ s - 2)
    (hsig : ∀ i, 1 ≤ i → i ≤ c - 1 →
      buf[i * s - 2]? = buf[f]? ∧ buf[i * s - 1]? = buf[f + 1]?) :
    ∀ fuel k, c - k < fuel → 1 ≤ k → k ≤ c →
    fixupLoop fuel (patchSectors buf f s (k - 1)) f c (s : Int) buf.length k
      = .ok (patchSectors buf f s (c - 1)) := by
  intro fuel
  induction fuel with
  | zero => intro k hfu h1 h2; exact absurd hfu (by omega)
  | succ fuel ih =>
    intro k hfu h1 h2
    have hsc1 : s ≤ s * (c - 1) := by
      have := Nat.mul_le_mul_left s (show 1 ≤ c - 1 by omega)
      simpa using this
    have hn : s - 2 ≤ buf.length := by omega
    have hfxn : f + 2 * c ≤ buf.length := by omega
    rw [fixupLoop_succ]
    by_cases hk : k = c
    · -- index = fx_count: position exceeds entry_size, the loop exits
      rw [hk]
      have hprod : s * c = s * (c - 1) + s := by
        have hc1 : c - 1 + 1 = c := by omega
        calc s * c = s * (c - 1 + 1) := by rw [hc1]
        _ = s * (c - 1) + s := by ring
      have hout : ¬ ((s : Int) * (c : Int) - 2 ≤ (buf.length : Int)) := by
        have hcast : ((s * c : Nat) : Int) = (s : Int) * (c : Int) := by push_cast; ring
        rw [← hcast]
        have : buf.length + s = s * c := by omega
        omega
      rw [if_neg hout]
    · -- index = k < fx_count: one substitution step
      have hklt : k ≤ c - 1 := by omega
      have hkn : k * s ≤ buf.length := by
        calc k * s ≤ (c - 1) * s := Nat.mul_le_mul_right s hklt
        _ = s * (c - 1) := Nat.mul_comm _ _
        _ = buf.length := hdiv
      have hks : s ≤ k * s := by simpa using Nat.mul_le_mul_right s h1
      have hlen : (patchSectors buf f s (k - 1)).length = buf.length :=
        length_patchSectors buf f s (k - 1)
      -- the Int position equals the Nat position k * s - 2
      have hposcast : (s : Int) * (k : Int) - 2 = ((k * s - 2 : Nat) : Int) := by
        have h3 : 2 ≤ k * s := by omega
        push_cast [h3]
        ring
      -- positions below s - 2 are untouched by the patches made so far
      have huntouched : ∀ j, j < s - 2 →
          (patchSectors buf f s (k - 1))[j]? = buf[j]? := by
        intro j hj
        refine patchSectors_getElem?_untouched buf f s (k - 1) j hs ?_
        intro i hi1 hi2
        have hsi : s ≤ i * s := by simpa using Nat.mul_le_mul_right s hi1
        omega
      -- the boundary pair at k * s - 2 is untouched as well
      have hpair_untouched : ∀ j, k * s - 2 ≤ j →
          (patchSectors buf f s (k - 1))[j]? = buf[j]? := by
        intro j hj
        refine patchSectors_getElem?_untouched buf f s (k - 1) j hs ?_
        intro i hi1 hi2
        have hik : i + 1 ≤ k := by omega
        have : i * s + s ≤ k * s := by
          have := Nat.mul_le_mul_right s hik
          simpa [Nat.add_mul] using this
        have hsi : s ≤ i * s := by simpa using Nat.mul_le_mul_right s hi1
        omega
      -- the fixup array reads through the live buffer, but its region is intact
      have hfxarr : pySlice (patchSectors buf f s (k - 1)) (f : Int) ((f + 2 * c : Nat) : Int)
          = pySlice buf (f : Int) ((f + 2 * c : Nat) : Int) := by
        refine pySlice_congr f (f + 2 * c) (by rw [hlen]) (by omega) (by omega) ?_
        intro j hjf hjb
        exact huntouched j (by omega)
      have hcond : ((k * s - 2 : Nat) : Int) ≤ (buf.length : Int) := by
        exact_mod_cast Nat.cast_le.mpr (show k * s - 2 ≤ buf.length by omega)
      rw [if_pos (by rw [hposcast]; exact hcond)]
      rw [hposcast]
      have hfc : ((f : Int) + 2 * (c : Int)) = ((f + 2 * c : Nat) : Int) := by
        push_cast; ring
      rw [hfc]
      have hslice : pySlice buf (f : Int) ((f + 2 * c : Nat) : Int)
          = (buf.drop f).take (2 * c) := by
        rw [pySlice_nat buf f (f + 2 * c) hfxn (by omega)]
        rw [Nat.add_sub_cancel_left]
      -- the two bytes compared against the signature
      have hp2 : (k * s - 2) + 2 ≤ buf.length := by omega
      have hcurpair : pySlice (patchSectors buf f s (k - 1)) ((k * s - 2 : Nat) : Int)
            (((k * s - 2 : Nat) : Int) + 2)
          = [buf.getD (k * s - 2) 0, buf.getD (k * s - 1) 0] := by
        rw [pySlice_pair _ _ (by rw [hlen]; exact hp2)]
        have e1 := hpair_untouched (k * s - 2) (le_refl _)
        have e2 := hpair_untouched (k * s - 1) (by omega)
        have hidx : k * s - 2 + 1 = k * s - 1 := by omega
        rw [hidx]
        simp only [List.getD_eq_getElem?_getD]
        rw [e1, e2]
      have hsig' := hsig k h1 hklt
      have hsigpair : ([buf.getD (k * s - 2) 0, buf.getD (k * s - 1) 0] : List Nat)
          = [buf.getD f 0, buf.getD (f + 1) 0] := by
        simp only [List.getD_eq_getElem?_getD]
        rw [hsig'.1, hsig'.2]
      have hfx2 : (pySlice buf (f : Int) ((f + 2 * c : Nat) : Int)).take 2
          = [buf.getD f 0, buf.getD (f + 1) 0] := by
        rw [hslice, List.take_take, Nat.min_eq_left (by omega), take_two_drop buf f (by omega)]
      rw [hfxarr, hcurpair, hsigpair, if_pos (by rw [hfx2])]
      -- the substitution pair fetched from the fixup array
      have hsub : ((pySlice buf (f : Int) ((f + 2 * c : Nat) : Int)).drop (2 * k)).take 2
          = [buf.getD (f + 2 * k) 0, buf.getD (f + 2 * k + 1) 0] := by
        rw [hslice, List.drop_take, List.drop_drop, List.take_take,
          Nat.min_eq_left (by omega),
          take_two_drop buf (f + 2 * k) (by omega)]
      rw [hsub]
      rw [pyWrite_pair _ _ _ _ (by rw [hlen]; exact hp2)]
      -- the written buffer is exactly the next patch state
      obtain ⟨m, rfl⟩ : ∃ m, k = m + 1 := ⟨k - 1, by omega⟩
      have hnext : setPair (patchSectors buf f s (m + 1 - 1)) ((m + 1) * s - 2)
            (buf.getD (f + 2 * (m + 1)) 0) (buf.getD (f + 2 * (m + 1) + 1) 0)
          = patchSectors buf f s (m + 1) := by
        rw [patchSectors]
        norm_num
      simp only [Nat.add_sub_cancel] at hnext ⊢
      rw [hnext]
      have hstep := ih (m + 2) (by omega) (by omega) (by omega)
      simpa using hstep

/-- C1 (amended).  Fixup round-trip for every entry buffer whose fixup array
region lies inside the first sector, before the first sector-boundary pair
(the non-overlap condition the counterexample forces), with
`sector_size = entry_size / (fx_count - 1)` exact and larger than two: if all
sector-boundary pairs at offsets `i * sector_size - 2` (`i ∈ [1, fx_count-1]`)
equal the two-byte signature at the start of the fixup array, then
`apply_fixup_array` succeeds and returns the buffer in which each such pair is
replaced by the corresponding fixup-array entry and every other byte is
unchanged. -/
theorem applyFixupArray_roundtrip (buf : List Nat) (fxOffset fxCount entrySize s : Nat)
    (hc : 2 ≤ fxCount)
    (hsz : entrySize = buf.length)
    (hsdef : s = entrySize / (fxCount - 1))
    (hs : 2 < s)
    (hdivi : s * (fxCount - 1) = entrySize)
    (hfx : fxOffset + 2 * fxCount ≤ s - 2)
    (hsig : ∀ i, i < fxCount → 1 ≤ i →
      buf[i * s - 2]? = buf[fxOffset]? ∧ buf[i * s - 1]? = buf[fxOffset + 1]?) :
    applyFixupArray buf fxOffset fxCount entrySize
        = .ok (patchSectors buf fxOffset s (fxCount - 1)) ∧
    (patchSectors buf fxOffset s (fxCount - 1)).length = buf.length ∧
    (∀ i, i < fxCount → 1 ≤ i →
      (patchSectors buf fxOffset s (fxCount - 1))[i * s - 2]? = buf[fxOffset + 2 * i]? ∧
      (patchSectors buf fxOffset s (fxCount - 1))[i * s - 1]? = buf[fxOffset + 2 * i + 1]?) ∧
    (∀ j, (∀ i, 1 ≤ i → i < fxCount → j ≠ i * s - 2 ∧ j ≠ i * s - 1) →
      (patchSectors buf fxOffset s (fxCount - 1))[j]? = buf[j]?) := by
  subst hsz
  have hsc1 : s ≤ s * (fxCount - 1) := by
    have := Nat.mul_le_mul_left s (show 1 ≤ fxCount - 1 by omega)
    simpa using this
  refine ⟨?_, length_patchSectors buf fxOffset s (fxCount - 1), ?_, ?_⟩
  · -- run of the loop
    rw [applyFixupArray]
    have hne : ¬ ((fxCount : Int) - 1 = 0) := by omega
    rw [if_neg hne]
    have hdivcast : Int.tdiv (buf.length : Int) ((fxCount : Int) - 1) = (s : Int) := by
      have h1 : ((fxCount : Int) - 1) = ((fxCount - 1 : Nat) : Int) := by omega
      rw [h1]
      show ((buf.length / (fxCount - 1) : Nat) : Int) = (s : Int)
      rw [← hdivi] at hsdef ⊢
      omega
    rw [hdivcast]
    have hrun := fixupLoop_run buf fxOffset fxCount s hs hc hdivi hfx
      (fun i hi1 hi2 => hsig i (by omega) hi1)
      (s * (fxCount - 1) + 3) 1 (by omega) (le_refl 1) (by omega)
    simpa [hdivi] using hrun
  · intro i hi hi1
    exact patchSectors_getElem?_pair buf fxOffset s hs (fxCount - 1) i hi1 (by omega)
      (by
        have h1 : i * s ≤ (fxCount - 1) * s := Nat.mul_le_mul_right s (by omega)
        have h2 : s ≤ i * s := by simpa using Nat.mul_le_mul_right s hi1
        have h3 : (fxCount - 1) * s = s * (fxCount - 1) := Nat.mul_comm _ _
        omega)
      (by omega)
  · intro j hj
    exact patchSectors_getElem?_untouched buf fxOffset s (fxCount - 1) j hs
      (fun i hi1 hi2 => hj i hi1 (by omega))

/-- Witness for C1 (amended): a 12-byte entry, `fx_count = 2`, sector size 12,
fixup array at offset 0 with signature `9 9` and substitution `7 8`; the
boundary pair at offset 10 carries the signature and is restored to `7 8`. -/
theorem applyFixupArray_roundtrip_witness :
    (2 ≤ 2 ∧ (12 : Nat) = ([9, 9, 7, 8, 0, 0, 0, 0, 0, 0, 9, 9] : List Nat).length ∧
      (12 : Nat) = 12 / (2 - 1) ∧ 2 < 12 ∧ 12 * (2 - 1) = 12 ∧ 0 + 2 * 2 ≤ 12 - 2 ∧
      (∀ i, i < 2 → 1 ≤ i →
        ([9, 9, 7, 8, 0, 0, 0, 0, 0, 0, 9, 9] : List Nat)[i * 12 - 2]?
            = ([9, 9, 7, 8, 0, 0, 0, 0, 0, 0, 9, 9] : List Nat)[0]? ∧
        ([9, 9, 7, 8, 0, 0, 0, 0, 0, 0, 9, 9] : List Nat)[i * 12 - 1]?
            = ([9, 9, 7, 8, 0, 0, 0, 0, 0, 0, 9, 9] : List Nat)[0 + 1]?)) ∧
    applyFixupArray [9, 9, 7, 8, 0, 0, 0, 0, 0, 0, 9, 9] 0 2 12
      = .ok (patchSectors [9, 9, 7, 8, 0, 0, 0, 0, 0, 0, 9, 9] 0 12 (2 - 1)) :=
  ⟨⟨by decide, by decide, by decide, by decide, by decide, by decide, by decide⟩,
    (applyFixupArray_roundtrip [9, 9, 7, 8, 0, 0, 0, 0, 0, 0, 9, 9] 0 2 12 12
      (by decide) (by decide) (by decide) (by decide) (by decide) (by decide)
      (by decide)).1⟩

/-- C1 (counterexample).  The claim as stated is false: in the 8-byte buffer
`[0,0,1,1,2,2,1,1]` with `fx_offset = 2`, `fx_count = 3`, `entry_size = 8`
(sector size 4), both sector-boundary pairs (offsets 2 and 6) equal the
signature `1 1` stored at the start of the fixup array, yet
`apply_fixup_array` raises FixUpError instead of patching the buffer: the
fixup array is a live view into the buffer, and the first substitution
overwrites the signature before the second pair is checked. -/
theorem applyFixupArray_claim_counterexample :
    (∀ i, i < 3 → 1 ≤ i →
      ([0, 0, 1, 1, 2, 2, 1, 1] : List Nat)[i * (8 / (3 - 1)) - 2]?
          = ([0, 0, 1, 1, 2, 2, 1, 1] : List Nat)[2]? ∧
      ([0, 0, 1, 1, 2, 2, 1, 1] : List Nat)[i * (8 / (3 - 1)) - 1]?
          = ([0, 0, 1, 1, 2, 2, 1, 1] : List Nat)[2 + 1]?) ∧
    applyFixupArray [0, 0, 1, 1, 2, 2, 1, 1] 2 3 8 = .error "FixUpError" := by
  constructor
  · decide
  · rfl

theorem dataRunsLoop_encode (rs : List RawRun) (hwf : ∀ r ∈ rs, wfRun r) :
    ∀ prev : Int, dataRunsLoop (encodeRuns rs) prev = .ok (specRuns rs prev) := by
  induction rs with
  | nil => intro prev; simp [encodeRuns, dataRunsLoop, specRuns]
  | cons r rs ih =>
    intro prev
    obtain ⟨hL, hO, hne⟩ := hwf r (List.mem_cons_self r rs)
    have hwf' : ∀ x ∈ rs, wfRun x := fun x hx => hwf x (List.mem_cons_of_mem r hx)
    set L := r.lenBytes.length with hLdef
    set O := r.offBytes.length with hOdef
    have hh : runHeaderByte r = L + 16 * O := rfl
    have hhne : ¬(runHeaderByte r = 0) := by rw [hh]; omega
    have hmod : (L + 16 * O) % 16 = L := by omega
    have hdivq : (L + 16 * O) / 16 % 16 = O := by omega
    rw [encodeRuns, encodeRun, List.cons_append, dataRunsLoop]
    rw [if_neg (by rw [hh]; omega)]
    simp only [hh, hmod, hdivq]
    have hrest : r.lenBytes ++ r.offBytes ++ encodeRuns rs
        = r.lenBytes ++ (r.offBytes ++ encodeRuns rs) := by
      rw [List.append_assoc]
    have htakeL : (r.lenBytes ++ r.offBytes ++ encodeRuns rs).take L = r.lenBytes := by
      rw [hrest]
      exact List.take_left' rfl
    have hdropL : (r.lenBytes ++ r.offBytes ++ encodeRuns rs).drop L
        = r.offBytes ++ encodeRuns rs := by
      rw [hrest]
      exact List.drop_left' rfl
    have hdropLO : (r.lenBytes ++ r.offBytes ++ encodeRuns rs).drop (L + O)
        = encodeRuns rs := by
      have hlen : (r.lenBytes ++ r.offBytes).length = L + O := by
        simp [hLdef, hOdef]
      exact List.drop_left' hlen
    by_cases hOz : O = 0
    · have hoff : r.offBytes = [] := List.length_eq_zero.mp (by omega)
      rw [if_pos hOz, hdropLO, ih hwf' prev, htakeL]
      rw [specRuns, if_pos (by omega)]
    · rw [if_neg hOz, hdropLO, hdropL]
      have htakeO : (r.offBytes ++ encodeRuns rs).take O = r.offBytes :=
        List.take_left' rfl
      rw [htakeO, htakeL, ih hwf']
      rw [specRuns, if_neg (by omega), Int.add_comm prev (leSigned r.offBytes)]

/-- C5.  For every well-terminated run-list byte sequence (a sequence of
well-formed runs followed by the terminating zero header), the decoder emits
the runs in stream order: each run's length is the unsigned little-endian
value of its `len_len` bytes; a run with `off_len = 0` is emitted with
absolute starting cluster `None` and leaves the running absolute offset
unchanged; every other run's absolute starting cluster is the previous
absolute offset (starting at 0) plus the signed little-endian delta of its
`off_len` bytes. -/
theorem dataRuns_decodes_wf_stream (rs : List RawRun) (hwf : ∀ r ∈ rs, wfRun r) :
    dataRuns (encodeRuns rs) = .ok (specRuns rs 0) :=
  dataRunsLoop_encode rs hwf 0

/-- Witness for C5: three runs — `(len 8, delta 52)`, a sparse run of 16
clusters, then `(len 4, delta -32)` — decode to absolute clusters 52, none
and 20. -/
theorem dataRuns_decodes_wf_stream_witness :
    (∀ r ∈ ([⟨[8], [52]⟩, ⟨[16], []⟩, ⟨[4], [224]⟩] : List RawRun), wfRun r) ∧
    dataRuns (encodeRuns [⟨[8], [52]⟩, ⟨[16], []⟩, ⟨[4], [224]⟩])
      = .ok (specRuns [⟨[8], [52]⟩, ⟨[16], []⟩, ⟨[4], [224]⟩] 0) ∧
    specRuns [⟨[8], [52]⟩, ⟨[16], []⟩, ⟨[4], [224]⟩] 0
      = [(8, some 52), (16, none), (4, some 20)] :=
  ⟨by decide, dataRuns_decodes_wf_stream _ (by decide), by decide⟩

/-- C9 (amended).  `convert_filetime` returns the naive timestamp
1601-01-01 plus `filetime / 10` microseconds rounded half-to-even; when the
value is a multiple of 10 this is exactly the value counted in
100-nanosecond intervals since 1601-01-01, but the result carries NO time
zone (it is merely documented to be read as UTC). -/
theorem convert_filetime_naive_micros (ft : Nat) (hod : 10 ∣ ft) (hrange : ft < 2 ^ 52) :
    (convert_filetime ft).microsSince1601 * 10 = ft ∧
    (convert_filetime ft).tzinfo = none := by
  constructor
  · obtain ⟨q, rfl⟩ := hod
    simp [convert_filetime, roundTenthsHalfEven, Nat.mul_mod_right, Nat.mul_div_cancel_left]
    ring
  · rfl

/-- Witness for C9 (amended) at `filetime = 130` (13 microseconds). -/
theorem convert_filetime_naive_micros_witness :
    ((10 : Nat) ∣ 130 ∧ (130 : Nat) < 2 ^ 52) ∧
    ((convert_filetime 130).microsSince1601 * 10 = 130 ∧
      (convert_filetime 130).tzinfo = none) :=
  ⟨⟨by decide, by norm_num⟩, convert_filetime_naive_micros 130 (by decide) (by norm_num)⟩

/-- C9 (counterexample).  The claim says the returned timestamp carries UTC
as its time zone; the returned datetime is naive: at `filetime = 0` the
`tzinfo` is `none`, not an attached UTC zone, and at `filetime = 5`
(500 nanoseconds) the timestamp equals 1601-01-01 exactly rather than
1601-01-01 plus five 100-nanosecond intervals. -/
theorem convert_filetime_claim_counterexample :
    (convert_filetime 0).tzinfo ≠ some () ∧
    convert_filetime 5 = convert_filetime 0 := by
  constructor
  · intro hcontra; cases hcontra
  · rfl

theorem resolveLoop_chain (mft : Nat → Option PathEntry) (index seq : Nat)
    (names : List String) (r : Bool × List String)
    (h : Chain mft index seq names r) :
    ∃ fuel, resolveLoop mft fuel names index seq = some (.ok (r.1, joinPath r.2)) := by
  induction h with
  | root seq names => exact ⟨1, by simp [resolveLoop]⟩
  | mismatch hne hlook hseq =>
    exact ⟨1, by simp [resolveLoop, hne, hlook, hseq]⟩
  | step hne hlook hseq hfn hrest ih =>
    obtain ⟨fuel, hfuel⟩ := ih
    refine ⟨fuel + 1, ?_⟩
    simp only [resolveLoop, if_neg hne, hlook, hseq, hfn, ne_eq, not_true_eq_false,
      if_false, ite_not]
    simpa using hfuel

/-- C4.  For every entry on which resolution is started via the `entry`
argument: when the main FILE_NAME's parent chain reaches a record whose
current sequence number differs from the stored parent sequence, the walk
aborts at that first mismatch and returns `(is_orphan = true,
path_built_so_far)`; when the chain instead reaches parent reference 5, it
returns `(is_orphan = false, names joined by backslash from root to leaf)`.
Both outcomes are the two terminal constructors of `Chain`. -/
theorem getEntryFullPath_follows_chain (mft : Nat → Option PathEntry)
    (e : PathEntry) (fn : FnAttr) (o : Bool) (ns : List String)
    (hfn : getMainFilenameAttr e = .ok (some fn))
    (hchain : Chain mft fn.parentRef fn.parentSeq [fn.name] (o, ns)) :
    ∃ fuel, getEntryFullPath mft fuel none (some e) = some (.ok (o, joinPath ns)) := by
  obtain ⟨fuel, hfuel⟩ := resolveLoop_chain mft fn.parentRef fn.parentSeq [fn.name] (o, ns) hchain
  refine ⟨fuel, ?_⟩
  rw [getEntryFullPath, if_neg (by simp), if_neg (by simp)]
  show (match getMainFilenameAttr e with
    | .error e => some (.error e)
    | .ok none => some (.error "EntryError")
    | .ok (some fn) => resolveLoop mft fuel [fn.name] fn.parentRef fn.parentSeq)
      = some (.ok (o, joinPath ns))
  rw [hfn]
  exact hfuel

/-- Witness for C4, the orphaned-chain scenario S3: entry 60's FILE_NAME has
parent 99 with stored sequence 7, entry 99's current sequence is 8 (slot
reused), so resolution returns `(true, "file60")`, aborting at the first
mismatch. -/
theorem getEntryFullPath_follows_chain_witness :
    (getMainFilenameAttr ⟨4, [⟨0, 99, 7, 1, "file60"⟩]⟩
        = .ok (some ⟨0, 99, 7, 1, "file60"⟩) ∧
      joinPath ["file60"] = "file60") ∧
    (∃ fuel, getEntryFullPath
        (fun n => if n = 60 then some ⟨4, [⟨0, 99, 7, 1, "file60"⟩]⟩
          else if n = 99 then some ⟨8, [⟨0, 5, 1, 1, "dir99"⟩]⟩ else none)
        fuel none (some ⟨4, [⟨0, 99, 7, 1, "file60"⟩]⟩)
      = some (.ok (true, joinPath ["file60"]))) :=
  ⟨⟨by decide, rfl⟩,
    getEntryFullPath_follows_chain _ _ ⟨0, 99, 7, 1, "file60"⟩ true ["file60"]
      (by decide)
      (Chain.mismatch (e := ⟨8, [⟨0, 5, 1, 1, "dir99"⟩]⟩) (by decide) rfl (by decide))⟩

/-- C10.  Calling `get_entry_full_path` with `entry_number = 0` and no entry
object always raises MFTError: the truthiness test `if entry_number:` treats
0 like an absent argument, `elif entry:` fails as well, and the final branch
raises — independent of the MFT contents and of the loop fuel. -/
theorem getEntryFullPath_zero_mftError (mft : Nat → Option PathEntry) (fuel : Nat) :
    getEntryFullPath mft fuel (some 0) none = some (.error "MFTError") := rfl

theorem mem_insertByFst (x a : Nat × α) (l : List (Nat × α)) :
    a ∈ insertByFst x l ↔ a = x ∨ a ∈ l := by
  induction l with
  | nil => simp [insertByFst]
  | cons y ys ih =>
    by_cases h : y.1 ≤ x.1
    · simp only [insertByFst, if_pos h, List.mem_cons, ih]
      tauto
    · simp only [insertByFst, if_neg h, List.mem_cons]

theorem insertByFst_sorted (x : Nat × α) (l : List (Nat × α)) (h : FstSorted l) :
    FstSorted (insertByFst x l) := by
  induction l with
  | nil => simp [insertByFst, FstSorted]
  | cons y ys ih =>
    rcases List.pairwise_cons.mp h with ⟨hy, hys⟩
    by_cases hle : y.1 ≤ x.1
    · rw [insertByFst, if_pos hle]
      refine List.pairwise_cons.mpr ⟨?_, ih hys⟩
      intro a ha
      rcases (mem_insertByFst x a ys).mp ha with rfl | ha
      · exact hle
      · exact hy a ha
    · rw [insertByFst, if_neg hle]
      refine List.pairwise_cons.mpr ⟨?_, h⟩
      intro a ha
      rcases List.mem_cons.mp ha with rfl | ha
      · omega
      · exact le_trans (by omega) (hy a ha)

theorem sortByFst_sorted (l : List (Nat × α)) : FstSorted (sortByFst l) := by
  induction l with
  | nil => exact List.Pairwise.nil
  | cons x xs ih => exact insertByFst_sorted x (sortByFst xs) ih

theorem mergeScalars_inv (ds src : Datastream) (h : dsInv ds) :
    dsInv (mergeScalars ds src) := by
  intro hsor frags hfrags
  exact h hsor frags hfrags

theorem dsStep_inv (ds : Datastream) (op : DsOp) (h : dsInv ds) : dsInv (dsStep ds op) := by
  cases op with
  | addAttr a =>
    rw [dsStep]
    rcases hstep : addDataAttribute ds a with e | d
    · exact h
    · rw [addDataAttribute] at hstep
      split at hstep
      · cases hstep
      · split at hstep
        · cases hstep
        · split at hstep
          · cases hstep
            intro hsor; cases hsor
          · cases hstep
            intro hsor frags hfrags
            exact h hsor frags hfrags
  | merge s =>
    rw [dsStep]
    rcases hstep : addFromDatastream ds s with e | d
    · exact h
    · rw [addFromDatastream] at hstep
      split at hstep
      · cases hstep
      · split at hstep
        · cases hstep
        · split at hstep
          · split at hstep
            · cases hstep
              intro hsor; cases hsor
            · cases hstep
              exact mergeScalars_inv ds s h
          · cases hstep
            exact mergeScalars_inv ds s h
  | read =>
    rw [dsStep]
    rcases hstep : getDataruns ds with e | p
    · exact h
    · rw [getDataruns] at hstep
      split at hstep
      · cases hstep
      · split at hstep
        · cases hstep
          exact h
        · cases hstep
          intro hsor2 frags2 hfrags2
          cases hfrags2
          next frags _ _ => exact sortByFst_sorted frags

theorem dsReach_inv (name : Option String) (ops : List DsOp) : dsInv (dsReach name ops) := by
  rw [dsReach]
  have hgen : ∀ (l : List DsOp) (ds : Datastream), dsInv ds → dsInv (l.foldl dsStep ds) := by
    intro l
    induction l with
    | nil => intro ds h; exact h
    | cons op l ih =>
      intro ds h
      exact ih (dsStep ds op) (dsStep_inv ds op h)
  exact hgen ops (Datastream.init name) (by intro hsor; cases hsor)

/-- C7.  After any sequence of mutations (DATA attributes added in any order,
extension datastreams merged in, interleaved reads), every successful read of
the `dataruns` property observes a fragment list ordered by non-decreasing
start VCN and returns exactly its run lists; the sort is performed at read
time and memoised in the sorted bit, which every fragment mutation clears
(that is what makes the memoised branch of the read correct). -/
theorem datastream_read_sorted (name : Option String) (ops : List DsOp)
    (res : List (List (Nat × Option Int))) (ds' : Datastream)
    (h : getDataruns (dsReach name ops) = .ok (res, ds')) :
    ∃ frags, ds'.dataRunsFrag = some frags ∧ FstSorted frags ∧
      res = frags.map Prod.snd := by
  have hinv := dsReach_inv name ops
  rw [getDataruns] at h
  split at h
  · cases h
  · next frags hfr =>
    split at h
    · next hsor =>
      cases h
      exact ⟨frags, hfr, hinv hsor frags hfr, rfl⟩
    · cases h
      exact ⟨sortByFst frags, rfl, sortByFst_sorted frags, rfl⟩

/-- Witness for C7: two non-resident DATA attributes added out of VCN order
(fragments starting at VCN 100, then VCN 0); the read returns the run lists
sorted by start VCN. -/
theorem datastream_read_sorted_witness :
    (getDataruns (dsReach none
        [.addAttr ⟨128, none, .nonResident 100 249 0 0 [(5, some 10)]⟩,
         .addAttr ⟨128, none, .nonResident 0 99 4096 4000 [(3, none)]⟩])
      = .ok ([[(3, none)], [(5, some 10)]],
        { name := none, size := 4000, allocSize := 4096, clusterCount := 249,
          dataRunsFrag := some [(0, [(3, none)]), (100, [(5, some 10)])],
          content := none, dataRunsSorted := true })) ∧
    (∃ frags,
      ({ name := none, size := 4000, allocSize := 4096, clusterCount := 249,
          dataRunsFrag := some [(0, [(3, none)]), (100, [(5, some 10)])],
          content := none, dataRunsSorted := true } : Datastream).dataRunsFrag
        = some frags ∧
      FstSorted frags ∧
      ([[(3, none)], [(5, some 10)]] : List (List (Nat × Option Int)))
        = frags.map Prod.snd) :=
  ⟨by decide,
    datastream_read_sorted none
      [.addAttr ⟨128, none, .nonResident 100 249 0 0 [(5, some 10)]⟩,
       .addAttr ⟨128, none, .nonResident 0 99 4096 4000 [(3, none)]⟩]
      [[(3, none)], [(5, some 10)]] _ (by decide)⟩

theorem addDataAttribute_nonres_ok (ds : Datastream) (a : DataAttr)
    (ha : isNonResData ds.name a) :
    ∃ ds', addDataAttribute ds a = .ok ds' ∧
      ds'.clusterCount = max ds.clusterCount (endVcnOf a) ∧ ds'.name = ds.name := by
  obtain ⟨ht, hn, hb⟩ := ha
  cases hbody : a.body with
  | resident cl co => rw [hbody] at hb; cases hb
  | nonResident sv ev al cu rl =>
    refine ⟨{ ds with
      clusterCount := if ev > ds.clusterCount then ev else ds.clusterCount,
      size := if sv = 0 then cu else ds.size,
      allocSize := if sv = 0 then al else ds.allocSize,
      dataRunsFrag := some (ds.dataRunsFrag.getD [] ++ [(sv, rl)]),
      dataRunsSorted := false }, ?_, ?_, rfl⟩
    · rw [addDataAttribute, if_neg (by simp [ht]), if_neg (by simp [hn]), hbody]
    · show (if ev > ds.clusterCount then ev else ds.clusterCount)
        = max ds.clusterCount (endVcnOf a)
      simp only [endVcnOf, hbody]
      split <;> omega

theorem foldlM_buildStream_clusterCount (attrs : List DataAttr) :
    ∀ ds0 : Datastream, (∀ a ∈ attrs, isNonResData ds0.name a) →
    ∃ ds, attrs.foldlM addDataAttribute ds0 = .ok ds ∧ ds.name = ds0.name ∧
      ds.clusterCount = attrs.foldl (fun m a => max m (endVcnOf a)) ds0.clusterCount := by
  induction attrs with
  | nil => intro ds0 _; exact ⟨ds0, rfl, rfl, rfl⟩
  | cons a attrs ih =>
    intro ds0 h
    obtain ⟨ds1, hok, hcc, hname⟩ := addDataAttribute_nonres_ok ds0 a
      (h a (List.mem_cons_self a attrs))
    obtain ⟨ds, hok2, hname2, hcc2⟩ := ih ds1
      (by rw [hname]; exact fun x hx => h x (List.mem_cons_of_mem a hx))
    refine ⟨ds, ?_, by rw [hname2, hname], ?_⟩
    · rw [List.foldlM_cons, hok]
      simpa using hok2
    · rw [List.foldl_cons, hcc2, hcc]

theorem buildStream_clusterCount (name : Option String) (attrs : List DataAttr)
    (h : ∀ a ∈ attrs, isNonResData name a) :
    ∃ ds, buildStream name attrs = .ok ds ∧ ds.name = name ∧
      ds.clusterCount = attrs.foldl (fun m a => max m (endVcnOf a)) 0 :=
  foldlM_buildStream_clusterCount attrs (Datastream.init name) h

theorem addFromDatastream_clusterCount (ds src ds' : Datastream)
    (h : addFromDatastream ds src = .ok ds') :
    ds'.clusterCount = max ds.clusterCount src.clusterCount := by
  have hms : (mergeScalars ds src).clusterCount = max ds.clusterCount src.clusterCount := by
    show (if ds.clusterCount < src.clusterCount then src.clusterCount
      else ds.clusterCount) = max ds.clusterCount src.clusterCount
    split <;> omega
  rw [addFromDatastream] at h
  split at h
  · cases h
  · split at h
    · cases h
    · split at h
      · split at h
        · cases h; exact hms
        · cases h; exact hms
      · cases h; exact hms

theorem foldl_max_shift (attrs : List DataAttr) :
    ∀ b : Nat, attrs.foldl (fun m a => max m (endVcnOf a)) b
      = max b (attrs.foldl (fun m a => max m (endVcnOf a)) 0) := by
  induction attrs with
  | nil => intro b; simp
  | cons a attrs ih =>
    intro b
    rw [List.foldl_cons, List.foldl_cons, ih (max b (endVcnOf a)),
      ih (max 0 (endVcnOf a))]
    omega

/-- C3 (amended).  For a base datastream built from non-resident DATA
attributes and an extension datastream merged in, the resulting
`cluster_count` equals the HIGHEST END VCN observed across those attributes
(the code never adds one); in particular end VCNs 99 and 249 yield
cluster_count 249, not 250. -/
theorem datastream_clusterCount_max_endVcn (name : Option String)
    (l1 l2 : List DataAttr) (ds1 ds2 dsm : Datastream)
    (h1 : ∀ a ∈ l1, isNonResData name a) (h2 : ∀ a ∈ l2, isNonResData name a)
    (hb1 : buildStream name l1 = .ok ds1) (hb2 : buildStream name l2 = .ok ds2)
    (hm : addFromDatastream ds1 ds2 = .ok dsm) :
    dsm.clusterCount = (l1 ++ l2).foldl (fun m a => max m (endVcnOf a)) 0 := by
  obtain ⟨e1, he1, _, hcc1⟩ := buildStream_clusterCount name l1 h1
  obtain ⟨e2, he2, _, hcc2⟩ := buildStream_clusterCount name l2 h2
  have h1eq := hb1.symm.trans he1
  cases h1eq
  have h2eq := hb2.symm.trans he2
  cases h2eq
  rw [addFromDatastream_clusterCount ds1 ds2 dsm hm, hcc1, hcc2, List.foldl_append,
    foldl_max_shift l2 (List.foldl (fun m a => max m (endVcnOf a)) 0 l1)]

/-- Witness for C3 (amended): base DATA with end VCN 99, extension DATA with
end VCN 249, merged cluster count 249. -/
theorem datastream_clusterCount_max_endVcn_witness :
    ((∀ a ∈ [c3BaseAttr], isNonResData none a) ∧
      (∀ a ∈ [c3ExtAttr], isNonResData none a) ∧
      buildStream none [c3BaseAttr] = .ok c3BaseStream ∧
      buildStream none [c3ExtAttr] = .ok c3ExtStream ∧
      addFromDatastream c3BaseStream c3ExtStream = .ok c3MergedStream) ∧
    c3MergedStream.clusterCount
      = ([c3BaseAttr] ++ [c3ExtAttr]).foldl (fun m a => max m (endVcnOf a)) 0 :=
  ⟨⟨by decide, by decide, by decide, by decide, by decide⟩,
    datastream_clusterCount_max_endVcn none [c3BaseAttr] [c3ExtAttr]
      c3BaseStream c3ExtStream c3MergedStream
      (by decide) (by decide) (by decide) (by decide) (by decide)⟩

/-- C3 (counterexample).  The claim says cluster_count is the highest end
VCN plus one, with 250 for end VCNs 99 and 249; the code takes the plain
maximum and yields 249. -/
theorem datastream_clusterCount_claim_counterexample :
    (Except.map (fun d => d.clusterCount)
      ((buildStream none [c3BaseAttr]).bind (fun ds1 =>
        (buildStream none [c3ExtAttr]).bind (fun ds2 =>
          addFromDatastream ds1 ds2)))
      = .ok 249) ∧
    (Except.map (fun d => d.clusterCount)
      ((buildStream none [c3BaseAttr]).bind (fun ds1 =>
        (buildStream none [c3ExtAttr]).bind (fun ds2 =>
          addFromDatastream ds1 ds2)))
      ≠ .ok 250) := by
  constructor
  · decide
  · decide

theorem scanGo_char (temp : List (Option StubM)) :
    ∀ (l : List (Option StubM)) (i : Nat) (st0 st : ScanState),
    scanGo temp i l st0 = .ok st →
    st.numberValidEntries = st0.numberValidEntries + l.countP Option.isSome ∧
    st.emptyEntries = st0.emptyEntries ++ specEmptiesFrom i l ∧
    st.entriesChildParent = st0.entriesChildParent ++ l.filterMap (childOf temp) := by
  intro l
  induction l with
  | nil =>
    intro i st0 st h
    cases h
    simp [specEmptiesFrom]
  | cons os rest ih =>
    intro i st0 st h
    cases os with
    | none =>
      rw [scanGo] at h
      obtain ⟨h1, h2, h3⟩ := ih (i + 1) _ st h
      refine ⟨?_, ?_, ?_⟩
      · rw [h1]; simp [List.countP_cons]
      · rw [h2]; simp [specEmptiesFrom]
      · rw [h3]; simp [List.filterMap_cons, childOf]
    | some s =>
      rw [scanGo] at h
      split at h
      · next href =>
        split at h
        · cases h
        · cases h
        · next parent hlk =>
          split at h
          · next hrel =>
            obtain ⟨h1, h2, h3⟩ := ih (i + 1) _ st h
            have hreg : regCond temp (some s) = true := by
              rw [regCond, if_pos href, hlk]; exact hrel
            refine ⟨?_, ?_, ?_⟩
            · rw [h1]; simp [List.countP_cons]; omega
            · rw [h2]; simp [specEmptiesFrom]
            · rw [h3]; simp [List.filterMap_cons, childOf, hreg]
          · next hrel =>
            obtain ⟨h1, h2, h3⟩ := ih (i + 1) _ st h
            have hreg : regCond temp (some s) = false := by
              rw [regCond, if_pos href, hlk]
              rw [Bool.not_eq_true] at hrel
              exact hrel
            refine ⟨?_, ?_, ?_⟩
            · rw [h1]; simp [List.countP_cons]; omega
            · rw [h2]; simp [specEmptiesFrom]
            · rw [h3]; simp [List.filterMap_cons, childOf, hreg]
      · next href =>
        obtain ⟨h1, h2, h3⟩ := ih (i + 1) _ st h
        have hreg : regCond temp (some s) = false := by
          rw [regCond, if_neg href]
        refine ⟨?_, ?_, ?_⟩
        · rw [h1]; simp [List.countP_cons]; omega
        · rw [h2]; simp [specEmptiesFrom]
        · rw [h3]; simp [List.filterMap_cons, childOf, hreg]

theorem countP_range_getElem (l : List α) (q : α → Bool) :
    (List.range l.length).countP (fun i => (l[i]?.map q).getD false) = l.countP q := by
  induction l with
  | nil => rfl
  | cons x xs ih =>
    rw [List.length_cons, List.range_succ_eq_map, List.countP_cons, List.countP_map,
      List.countP_cons]
    have hfun : ((fun i => (((x :: xs)[i]?).map q).getD false) ∘ (· + 1))
        = (fun i => ((xs[i]?).map q).getD false) := by
      funext i
      simp
    rw [hfun, ih]
    simp

theorem countP_and_not_add (l : List α) (p q : α → Bool)
    (himp : ∀ a, q a = true → p a = true) :
    l.countP (fun a => p a && !q a) + l.countP q = l.countP p := by
  induction l with
  | nil => rfl
  | cons a as ih =>
    rw [List.countP_cons, List.countP_cons, List.countP_cons]
    cases hq : q a with
    | true =>
      have hp := himp a hq
      simp [hq, hp]
      omega
    | false =>
      cases hp : p a with
      | true => simp [hq, hp]; omega
      | false => simp [hq, hp]; omega

theorem mem_specEmptiesFrom (l : List (Option StubM)) :
    ∀ i j, j ∈ specEmptiesFrom i l ↔ ∃ k, j = i + k ∧ l[k]? = some none := by
  induction l with
  | nil =>
    intro i j
    simp [specEmptiesFrom]
  | cons os rest ih =>
    intro i j
    cases os with
    | none =>
      rw [specEmptiesFrom]
      constructor
      · intro h
        rcases List.mem_cons.mp h with rfl | h
        · exact ⟨0, by omega, by simp⟩
        · obtain ⟨k, hk, hget⟩ := (ih (i + 1) j).mp h
          exact ⟨k + 1, by omega, by simpa using hget⟩
      · rintro ⟨k, hk, hget⟩
        cases k with
        | zero => simp at hk; simp [hk]
        | succ k =>
          refine List.mem_cons_of_mem _ ((ih (i + 1) j).mpr ⟨k, by omega, ?_⟩)
          simpa using hget
    | some s =>
      rw [specEmptiesFrom]
      rw [ih (i + 1) j]
      constructor
      · rintro ⟨k, hk, hget⟩
        exact ⟨k + 1, by omega, by simpa using hget⟩
      · rintro ⟨k, hk, hget⟩
        cases k with
        | zero => simp at hget
        | succ k => exact ⟨k, by omega, by simpa using hget⟩

theorem mem_specEmpties_zero (l : List (Option StubM)) (j : Nat) :
    j ∈ specEmptiesFrom 0 l ↔ l[j]? = some none := by
  rw [mem_specEmptiesFrom l 0 j]
  constructor
  · rintro ⟨k, hk, hget⟩
    have : j = k := by omega
    rw [this]; exact hget
  · intro h
    exact ⟨j, by omega, h⟩

theorem mem_childKeys (temp l : List (Option StubM))
    (hidx : ∀ k (s : StubM), l[k]? = some (some s) → s.mftRecord = k) (j : Nat) :
    j ∈ (l.filterMap (childOf temp)).map Prod.fst ↔
      ∃ s : StubM, l[j]? = some (some s) ∧ regCond temp (some s) = true := by
  constructor
  · intro h
    obtain ⟨pr, hpr, hj⟩ := List.mem_map.mp h
    obtain ⟨os, hos, hchild⟩ := List.mem_filterMap.mp hpr
    cases os with
    | none => simp [childOf] at hchild
    | some s =>
      rw [childOf] at hchild
      by_cases hreg : regCond temp (some s) = true
      · rw [if_pos hreg] at hchild
        have hpr2 : pr = (s.mftRecord, s.baseRecordRef) := (Option.some.inj hchild).symm
        obtain ⟨k, hk, hget⟩ := List.getElem_of_mem hos
        have hkey : s.mftRecord = k :=
          hidx k s (by rw [List.getElem?_eq_getElem hk, hget])
        refine ⟨s, ?_, hreg⟩
        have hj2 : j = k := by rw [← hj, hpr2]; exact hkey
        rw [hj2, List.getElem?_eq_getElem hk, hget]
      · rw [if_neg hreg] at hchild
        cases hchild
  · rintro ⟨s, hget, hreg⟩
    have hmem : (some s) ∈ l := List.getElem?_mem hget
    have hkey : s.mftRecord = j := hidx j s hget
    refine List.mem_map.mpr ⟨(s.mftRecord, s.baseRecordRef), ?_, hkey⟩
    refine List.mem_filterMap.mpr ⟨some s, hmem, ?_⟩
    rw [childOf, if_pos hreg]

theorem stubScan_length (slotBytes : List (List Nat)) :
    (stubScan slotBytes).length = slotBytes.length := by
  simp [stubScan]

theorem stubScan_mftRecord (slotBytes : List (List Nat)) :
    ∀ k (s : StubM), (stubScan slotBytes)[k]? = some (some s) → s.mftRecord = k := by
  intro k s h
  rw [stubScan, List.getElem?_map] at h
  cases henum : slotBytes.enum[k]? with
  | none => rw [henum] at h; cases h
  | some p =>
    rw [henum] at h
    have hp : loadStubFromBytes p.2 p.1 = some s :=
      Option.some.inj h
    have hfst : p.1 = k := by
      have := List.getElem?_enum slotBytes k
      rw [henum] at this
      cases hb : slotBytes[k]? with
      | none => rw [hb] at this; cases this
      | some b =>
        rw [hb] at this
        cases this; rfl
    rw [loadStubFromBytes] at hp
    by_cases hc : p.2.take 4 ≠ [0, 0, 0, 0]
    · rw [if_pos hc] at hp
      cases hp
      exact hfst
    · rw [if_neg hc] at hp
      cases hp

theorem iterGo_ok (st : ScanState) :
    ∀ (l : List Nat) (returned : Nat),
    returned + l.countP (fun i =>
      !(decide (i ∈ st.emptyEntries ∨ i ∈ st.entriesChildParent.map Prod.fst)))
      ≤ st.numberValidEntries →
    iterGo st l returned = .ok (returned + l.countP (fun i =>
      !(decide (i ∈ st.emptyEntries ∨ i ∈ st.entriesChildParent.map Prod.fst)))) := by
  intro l
  induction l with
  | nil =>
    intro returned _
    simp [iterGo]
  | cons i rest ih =>
    intro returned hbound
    rw [List.countP_cons] at hbound ⊢
    rw [iterGo, if_neg (by omega)]
    by_cases hskip : i ∈ st.emptyEntries ∨ i ∈ st.entriesChildParent.map Prod.fst
    · rw [if_pos hskip]
      have hz : (!(decide (i ∈ st.emptyEntries ∨ i ∈ st.entriesChildParent.map Prod.fst)))
          = false := by rw [decide_eq_true hskip]; rfl
      rw [hz] at hbound ⊢
      simp only [Bool.false_eq_true, if_false, Nat.add_zero] at hbound ⊢
      exact ih returned hbound
    · rw [if_neg hskip]
      have hz : (!(decide (i ∈ st.emptyEntries ∨ i ∈ st.entriesChildParent.map Prod.fst)))
          = true := by rw [decide_eq_false hskip]; rfl
      rw [hz] at hbound ⊢
      simp only [if_pos] at hbound ⊢
      have := ih (returned + 1) (by omega)
      rw [this]
      congr 1
      omega

/-- C2 (amended).  For every MFT image loaded with initial information, the
number of entries yielded by iteration (every slot that is neither empty nor
a registered extension) equals the valid-entries counter MINUS the number of
slots registered in the child-to-parent map — the stub scanner counts every
non-empty slot as valid, registered extensions included — and the iteration
never raises the MFTError guard. -/
theorem iterMFT_count (slotBytes : List (List Nat)) (st : ScanState)
    (h : loadStubInfo slotBytes = .ok st) :
    iterMFT st slotBytes.length
      = .ok (st.numberValidEntries - st.entriesChildParent.length) := by
  rw [loadStubInfo] at h
  obtain ⟨hval, hemp, hcp⟩ :=
    scanGo_char (stubScan slotBytes) (stubScan slotBytes) 0 _ st h
  simp only [List.nil_append, Nat.zero_add] at hval hemp hcp
  have hidx := stubScan_mftRecord slotBytes
  have hlen := stubScan_length slotBytes
  have hEiff : ∀ i, i ∈ st.emptyEntries ↔ (stubScan slotBytes)[i]? = some none := by
    intro i; rw [hemp]; exact mem_specEmpties_zero (stubScan slotBytes) i
  have hKiff : ∀ j, j ∈ st.entriesChildParent.map Prod.fst ↔
      ∃ s : StubM, (stubScan slotBytes)[j]? = some (some s) ∧
        regCond (stubScan slotBytes) (some s) = true := by
    intro j; rw [hcp]
    exact mem_childKeys (stubScan slotBytes) (stubScan slotBytes) hidx j
  have hcongr : ∀ i ∈ List.range slotBytes.length,
      (!(decide (i ∈ st.emptyEntries ∨ i ∈ st.entriesChildParent.map Prod.fst)))
        = (((stubScan slotBytes)[i]?.map
            (fun os => os.isSome && !(regCond (stubScan slotBytes) os))).getD false) := by
    intro i hi
    have hin : i < (stubScan slotBytes).length := by
      rw [hlen]; exact List.mem_range.mp hi
    cases hos : (stubScan slotBytes)[i]? with
    | none =>
      rw [List.getElem?_eq_none_iff] at hos
      omega
    | some os =>
      cases os with
      | none =>
        have hE : i ∈ st.emptyEntries := (hEiff i).mpr hos
        rw [decide_eq_true (Or.inl hE)]
        simp
      | some s =>
        have hEn : ¬(i ∈ st.emptyEntries) := by
          rw [hEiff i, hos]; simp
        by_cases hreg : regCond (stubScan slotBytes) (some s) = true
        · have hK : i ∈ st.entriesChildParent.map Prod.fst :=
            (hKiff i).mpr ⟨s, hos, hreg⟩
          rw [decide_eq_true (Or.inr hK)]
          simp [hreg]
        · have hKn : ¬(i ∈ st.entriesChildParent.map Prod.fst) := by
            rw [hKiff i]
            rintro ⟨s2, hos2, hreg2⟩
            rw [hos] at hos2
            have : s = s2 := Option.some.inj (Option.some.inj hos2)
            rw [← this] at hreg2
            exact hreg hreg2
          rw [decide_eq_false (by rintro (hc | hc); exact hEn hc; exact hKn hc)]
          rw [Bool.not_eq_true] at hreg
          simp [hreg]
  have hcount : (List.range slotBytes.length).countP (fun i =>
        !(decide (i ∈ st.emptyEntries ∨ i ∈ st.entriesChildParent.map Prod.fst)))
      = (stubScan slotBytes).countP
          (fun os => os.isSome && !(regCond (stubScan slotBytes) os)) := by
    rw [List.countP_congr (fun i hi => by rw [hcongr i hi])]
    rw [← hlen]
    exact countP_range_getElem (stubScan slotBytes) _
  have hK : st.entriesChildParent.length
      = (stubScan slotBytes).countP (regCond (stubScan slotBytes)) := by
    rw [hcp, List.length_filterMap_eq_countP]
    refine List.countP_congr ?_
    intro os hos
    cases os with
    | none => simp [childOf, regCond]
    | some s =>
      by_cases hreg : regCond (stubScan slotBytes) (some s) = true
      · simp [childOf, hreg]
      · rw [Bool.not_eq_true] at hreg
        simp [childOf, hreg]
  have himp : ∀ os, regCond (stubScan slotBytes) os = true → os.isSome = true := by
    intro os hreg
    cases os with
    | none => rw [regCond] at hreg; cases hreg
    | some s => rfl
  have hsplit := countP_and_not_add (stubScan slotBytes) Option.isSome
    (regCond (stubScan slotBytes)) himp
  rw [iterMFT]
  have hbound : 0 + (List.range slotBytes.length).countP (fun i =>
        !(decide (i ∈ st.emptyEntries ∨ i ∈ st.entriesChildParent.map Prod.fst)))
      ≤ st.numberValidEntries := by
    rw [hcount, hval]
    omega
  rw [iterGo_ok st (List.range slotBytes.length) 0 hbound]
  congr 1
  rw [hcount, hval, hK]
  omega

/-- C2 (counterexample).  On `c2Slots` the stub scanner counts 3 valid
entries (every non-empty slot, the registered extension included), but
iteration yields only 2 entries: the claimed equality between the iterator
count and the valid-entries counter is false as soon as one extension is
registered.  No MFTError is raised. -/
theorem iterMFT_claim_counterexample :
    loadStubInfo c2Slots
      = .ok { numberValidEntries := 3, emptyEntries := [],
              entriesParentChild := [(1, 2)], entriesChildParent := [(2, 1)] } ∧
    iterMFT { numberValidEntries := 3, emptyEntries := [],
              entriesParentChild := [(1, 2)], entriesChildParent := [(2, 1)] }
        c2Slots.length
      = .ok 2 ∧
    (2 : Nat) ≠ 3 := by
  refine ⟨by decide, by decide, by decide⟩

/-- Witness for C2 (amended) on `c2Slots`: 3 valid entries, one registered
extension, iteration yields 3 - 1 = 2 entries and raises nothing. -/
theorem iterMFT_count_witness :
    loadStubInfo c2Slots
      = .ok { numberValidEntries := 3, emptyEntries := [],
              entriesParentChild := [(1, 2)], entriesChildParent := [(2, 1)] } ∧
    iterMFT { numberValidEntries := 3, emptyEntries := [],
              entriesParentChild := [(1, 2)], entriesChildParent := [(2, 1)] }
        c2Slots.length
      = .ok ((3 : Nat) - ([(2, 1)] : List (Nat × Nat)).length) :=
  ⟨by decide,
    iterMFT_count c2Slots
      { numberValidEntries := 3, emptyEntries := [],
        entriesParentChild := [(1, 2)], entriesChildParent := [(2, 1)] }
      (by decide)⟩

/-- C6.  The sequence-mismatch half of the claim holds: an extension whose
stored base sequence (7) differs from the referenced stub's sequence (3) is
registered in neither map, counts as a valid entry, and raises nothing.  The
empty-referenced-slot half is a code bug: with slot 0 referencing the empty
slot 1, `temp[1]` is `None` and `None.is_related(stub)` raises
AttributeError, aborting the whole stub scan instead of treating the slot as
a base. -/
theorem loadStubInfo_c6_behaviour :
    loadStubInfo c6MismatchSlots
      = .ok { numberValidEntries := 3, emptyEntries := [],
              entriesParentChild := [], entriesChildParent := [] } ∧
    loadStubInfo c6EmptyRefSlots = .error "AttributeError" := by
  refine ⟨by decide, by decide⟩

/-- C8 (amended).  When the walker, at any offset short of the sentinel,
meets an enabled resident attribute whose content decoder rejects its bytes,
the whole entry parse fails with that error: nothing catches it, the failed
attribute is not skipped, and the attributes after it are never reached. -/
theorem loadAttributes_decoder_error_aborts
    (decode : Nat → List Nat → Except String (List Nat)) (loadDataruns : Bool)
    (enabled : List Nat) (view : List Nat) (fuel offset : Nat) (acc : EntryAttrs)
    (t len : Nat) (e : String)
    (hsent : pySlice view (offset : Int) ((offset : Int) + 4) ≠ [255, 255, 255, 255])
    (hinfo : getAttrInfo (view.drop offset) = .ok (t, len, false))
    (ht : t ∈ enabled)
    (hdec : decode (attrTypeOf (view.drop offset))
        (residentContentOf (view.drop offset)) = .error e) :
    loadAttributesLoop decode loadDataruns enabled view (fuel + 1) offset acc
      = .error e := by
  rw [loadAttributesLoop, if_neg hsent, hinfo]
  show (if t ∈ enabled then _ else _) = Except.error e
  rw [if_pos ht]
  show (match createFromBinary decode loadDataruns false (view.drop offset) with
    | .error e => .error e
    | .ok a =>
      if a.typeId = 128 then
        loadAttributesLoop decode loadDataruns enabled view fuel (offset + len)
          { acc with dataAttrs := acc.dataAttrs ++ [a] }
      else
        loadAttributesLoop decode loadDataruns enabled view fuel (offset + len)
          { acc with attrs := acc.attrs ++ [a] }) = Except.error e
  rw [createFromBinary, if_neg (by simp), hdec]

/-- Witness for C8 (amended): on `c8Stream` with the failing decoder, the
walk aborts with the ContentError at the first attribute. -/
theorem loadAttributes_decoder_error_aborts_witness :
    (pySlice c8Stream ((0 : Nat) : Int) (((0 : Nat) : Int) + 4) ≠ [255, 255, 255, 255] ∧
      getAttrInfo (c8Stream.drop 0) = .ok (16, 32, false) ∧
      (16 : Nat) ∈ [16, 48] ∧
      c8Decode (attrTypeOf (c8Stream.drop 0)) (residentContentOf (c8Stream.drop 0))
        = .error "ContentError") ∧
    loadAttributesLoop c8Decode true [16, 48] c8Stream (68 + 1) 0
        { attrs := [], dataAttrs := [] }
      = .error "ContentError" :=
  ⟨⟨by decide, by decide, by decide, by decide⟩,
    loadAttributes_decoder_error_aborts c8Decode true [16, 48] c8Stream 68 0
      { attrs := [], dataAttrs := [] } 16 32 "ContentError"
      (by decide) (by decide) (by decide) (by decide)⟩

/-- C8 (counterexample).  The claim says a ContentError is absorbed: the
failed attribute is skipped and the assembled entry still carries the other
attributes.  On `c8Stream` the decoder rejects the first attribute and the
walker returns the ContentError; no `EntryAttrs` value — in particular none
containing the type-48 attribute — is ever produced. -/
theorem loadAttributes_claim_counterexample :
    loadAttributes c8Decode true [16, 48] c8Stream = .error "ContentError" ∧
    ∀ r : EntryAttrs, loadAttributes c8Decode true [16, 48] c8Stream ≠ .ok r := by
  have h : loadAttributes c8Decode true [16, 48] c8Stream = .error "ContentError" := by
    decide
  refine ⟨h, ?_⟩
  intro r hr
  rw [h] at hr
  cases hr

end Libmft
